import Mathlib

/-!
Verification development for the pipeline accessioning engine
(`src/accession.py`): a shallow embedding of the provenance-graph
builder (`Analysis.make_tasks`, `Analysis.get_or_make_file`), the
lineage search (`Analysis.search_up` / `Analysis.search_down`), and the
accessioning engine (`Accession.accession_file`,
`Accession.get_derived_from`, `Accession.accession_step`,
`Accession.accession_steps`), together with theorems about the
invariants and failure semantics of those operations.

Modelling conventions:
* JSON metadata values are modelled by `JValue`; portal records and
  candidate payloads (Python dicts) by association lists `EDict` whose
  lookup (`dget`) sees the most recently written binding, matching
  Python `dict` observables.
* The mutable object graph (tasks holding file lists, files holding
  back-references to tasks) is modelled as an arena: tasks and files
  live in lists and refer to each other by index, as suggested by the
  spec (§9).
* External collaborators (Google Cloud storage hashing/size/download,
  the portal's create/reject decisions, the QC-attachment effects) are
  oracle functions carried in `Backend` / `Conn` / `Env`.
* Python's unbounded generator recursion in `search_up` / `search_down`
  is bounded by an explicit `fuel` parameter; every theorem about the
  searches is fuel-parametric.
* Python exceptions are modelled as `Except String` with the exact
  exception message where the message matters (the `accession_step`
  handler dispatches on substrings of `str(e)`).
-/

/-- File locations (`gs://...` URIs) are strings. -/
abbrev Loc := String

/-- Substring test, modelling Python's `needle in haystack` on `str`. -/
def containsSubAux (n : List Char) : List Char → Bool
  | [] => n.isEmpty
  | c :: t => n.isPrefixOf (c :: t) || containsSubAux n t

/-- `containsSub n h` is `true` iff `n` occurs as a contiguous substring of `h`. -/
def containsSub (needle hay : String) : Bool :=
  containsSubAux needle.toList hay.toList

mutual
/-- JSON-like metadata values appearing in the run metadata's
input/output descriptor trees (`Analysis.extract_files` only ever
distinguishes strings, lists and dicts; everything else yields no
files).  Lists and dicts are given their own spine types so that the
extraction is structurally recursive. -/
inductive JValue where
  | jstr : String → JValue
  | jlist : JList → JValue
  | jdict : JDict → JValue
  | jnull : JValue

inductive JList where
  | nil : JList
  | cons : JValue → JList → JList

inductive JDict where
  | nil : JDict
  | cons : String → JValue → JDict → JDict
end

/-- Lookup in a nested JSON dict (`d.get(key)`). -/
def jdict_find : JDict → String → Option JValue
  | .nil, _ => none
  | .cons k v rest, key => if k == key then some v else jdict_find rest key

mutual
/-- `Analysis.extract_files`: recursively extract every string
containing `gs://` from a nested string/list/dict structure, in
generator order (list items in order, dict values in insertion
order). -/
def extract_files : JValue → List Loc
  | .jstr s => if containsSub "gs://" s then [s] else []
  | .jlist items => extract_files_list items
  | .jdict kvs => extract_files_dict kvs
  | .jnull => []

/-- `extract_files` over the items of a JSON list. -/
def extract_files_list : JList → List Loc
  | .nil => []
  | .cons x xs => extract_files x ++ extract_files_list xs

/-- `extract_files` over the values of a JSON dict. -/
def extract_files_dict : JDict → List Loc
  | .nil => []
  | .cons _ v kvs => extract_files v ++ extract_files_dict kvs
end

/-- An input or output descriptor tree: the Python dict iterated by
`Analysis.get_or_make_files` (`section.items()`, in insertion order). -/
abbrev Sect := List (String × JValue)

/-- The `(key, filename)` pairs visited by `Analysis.get_or_make_files`
over one section, in iteration order. -/
def section_pairs (sec : Sect) : List (String × Loc) :=
  sec.flatMap (fun kv => (extract_files kv.2).map (fun fn => (kv.1, fn)))

/-- The file locations referenced by one section. -/
def section_locs (sec : Sect) : List Loc :=
  (section_pairs sec).map (·.2)

/-- The content-storage oracle (`GCBackend`): content hash, byte size
and the local path produced by `download`.  The spec (§6) requires it
to be consistent, which a pure function is by construction. -/
structure Backend where
  md5sum : Loc → String
  size : Loc → Nat
  download_path : Loc → String

/-- A `GSFile` artifact.  `task` is the index of the producing task
(`none` for raw inputs); `used_by_tasks` holds indices of consuming
tasks.  Mirrors `GSFile.__init__`. -/
structure GSFile where
  filename : Loc
  filekeys : List String
  task : Option Nat
  used_by_tasks : List Nat
  md5sum : String
  size : Nat
deriving DecidableEq

/-- One task invocation as read from the run metadata, after
`Analysis.make_task` has split the call key into a task name. -/
structure TaskData where
  task_name : String
  inputs : Sect
  outputs : Sect
  docker_image : Option String

/-- A raw entry of `metadata['calls']` before name splitting. -/
structure RawTask where
  inputs : Sect
  outputs : Sect
  dockerImageUsed : Option String

/-- `Analysis.make_task` takes `task_name.split('.')[1]`.  (Python
raises `IndexError` when the key has no dot; the model defaults to `""`
there, a case the claims never exercise.) -/
def make_task_name (key : String) : String :=
  (key.splitOn ".").getD 1 ""

/-- Flattening of `metadata['calls'].items()` performed by the first
loop of `Analysis.make_tasks`. -/
def flatten_calls (calls : List (String × List RawTask)) : List TaskData :=
  calls.flatMap
    (fun kv => kv.2.map
      (fun t => ⟨make_task_name kv.1, t.inputs, t.outputs, t.dockerImageUsed⟩))

/-- The update applied by `Analysis.get_or_make_file` when the filename
is already known: append the key to `filekeys` if missing, and the
consuming task to `used_by_tasks` if given and missing.  The producing
task is never touched. -/
def updateFound (key : String) (usedBy : Option Nat) (f : GSFile) : GSFile :=
  { f with
    filekeys := if key ∈ f.filekeys then f.filekeys else f.filekeys ++ [key]
    used_by_tasks :=
      match usedBy with
      | some t => if t ∈ f.used_by_tasks then f.used_by_tasks
                  else f.used_by_tasks ++ [t]
      | none => f.used_by_tasks }

/-- The fresh `GSFile` built on a miss (the `GSFile.__init__` call in
`Analysis.get_or_make_file`): hash and size are fetched from the
backend, `used_by_tasks` is `[t]` or `[]`. -/
def newGSFile (bk : Backend) (key : String) (fn : Loc)
    (task : Option Nat) (usedBy : Option Nat) : GSFile :=
  { filename := fn
    filekeys := [key]
    task := task
    used_by_tasks := match usedBy with | some t => [t] | none => []
    md5sum := bk.md5sum fn
    size := bk.size fn }

/-- `Analysis.get_or_make_file`: linear scan of the known files by
filename; on a hit update the found file in place, on a miss append a
fresh one.  Returns the updated arena and the index of the file. -/
def get_or_make_file (bk : Backend) (key : String) (fn : Loc)
    (task : Option Nat) (usedBy : Option Nat) :
    List GSFile → List GSFile × Nat
  | [] => ([newGSFile bk key fn task usedBy], 0)
  | f :: fs =>
    if f.filename = fn then
      (updateFound key usedBy f :: fs, 0)
    else
      ((f :: (get_or_make_file bk key fn task usedBy fs).1),
        (get_or_make_file bk key fn task usedBy fs).2 + 1)

/-- `Analysis.get_or_make_files` over the `(key, filename)` pairs of a
section, threading the file arena and collecting the visited files'
indices. -/
def get_or_make_files_pairs (bk : Backend) (task usedBy : Option Nat) :
    List (String × Loc) → List GSFile → List GSFile × List Nat
  | [], files => (files, [])
  | (key, fn) :: rest, files =>
    let r1 := get_or_make_file bk key fn task usedBy files
    let r2 := get_or_make_files_pairs bk task usedBy rest r1.1
    (r2.1, r1.2 :: r2.2)

/-- `Analysis.get_or_make_files` on a section. -/
def get_or_make_files (bk : Backend) (sec : Sect)
    (task usedBy : Option Nat) (files : List GSFile) :
    List GSFile × List Nat :=
  get_or_make_files_pairs bk task usedBy (section_pairs sec) files

/-- Pass 1 of `Analysis.make_tasks`: for every task (carrying its index
`i`), build output artifacts with the task as producer. -/
def run_pass1 (bk : Backend) : Nat → List TaskData → List GSFile →
    List GSFile × List (List Nat)
  | _, [], files => (files, [])
  | i, t :: ts, files =>
    let r1 := get_or_make_files bk t.outputs (some i) none files
    let r2 := run_pass1 bk (i + 1) ts r1.1
    (r2.1, r1.2 :: r2.2)

/-- Pass 2 of `Analysis.make_tasks`: input artifacts, with no producer
assignment and the task added as consumer. -/
def run_pass2 (bk : Backend) : Nat → List TaskData → List GSFile →
    List GSFile × List (List Nat)
  | _, [], files => (files, [])
  | i, t :: ts, files =>
    let r1 := get_or_make_files bk t.inputs none (some i) files
    let r2 := run_pass2 bk (i + 1) ts r1.1
    (r2.1, r1.2 :: r2.2)

/-- A fully built task: name, raw descriptor trees, and the indices of
its input/output artifacts in the file arena (the `input_files` /
`output_files` lists populated by `Analysis.make_tasks`). -/
structure BuiltTask where
  task_name : String
  inputs : Sect
  outputs : Sect
  input_files : List Nat
  output_files : List Nat
  docker_image : Option String

/-- Zip the task data with the per-task artifact index lists produced
by the two passes. -/
def buildTasks : List TaskData → List (List Nat) → List (List Nat) →
    List BuiltTask
  | t :: ts, outs :: os, ins :: is_ =>
    ⟨t.task_name, t.inputs, t.outputs, ins, outs, t.docker_image⟩ ::
      buildTasks ts os is_
  | _, _, _ => []

/-- `Analysis.make_tasks`: all output artifacts for all tasks are built
first, then all input artifacts (the comment in the source: making
input files after output files avoids creating a duplicate file). -/
def make_tasks (bk : Backend) (ts : List TaskData) :
    List BuiltTask × List GSFile :=
  let p1 := run_pass1 bk 0 ts []
  let p2 := run_pass2 bk 0 ts p1.1
  (buildTasks ts p1.2 p2.2, p2.1)

/-- The locations referenced by a task's output descriptor tree. -/
def out_locs (t : TaskData) : List Loc := section_locs t.outputs

/-- The locations referenced by a task's input descriptor tree. -/
def in_locs (t : TaskData) : List Loc := section_locs t.inputs

/-- All file locations referenced across all task inputs and outputs. -/
def referenced_locs (ts : List TaskData) : List Loc :=
  ts.flatMap (fun t => out_locs t ++ in_locs t)

/-- The filenames of a file arena, in arena order. -/
def locs (files : List GSFile) : List Loc := files.map (·.filename)

/-- The built provenance graph: the arena of tasks and files
(`Analysis.tasks` / `Analysis.files`). -/
structure AnalysisG where
  tasks : List BuiltTask
  files : List GSFile

/-- Resolve a list of arena indices to the file objects they denote.
(For graphs built by `make_tasks` every index is in range; a dangling
index, impossible in Python's object model, is skipped.) -/
def resolveFiles (A : AnalysisG) (idxs : List Nat) : List GSFile :=
  idxs.filterMap (fun i => A.files.get? i)

/-- `Analysis.get_tasks`: all tasks with the given name, in order. -/
def get_tasks (A : AnalysisG) (name : String) : List BuiltTask :=
  A.tasks.filter (fun t => t.task_name == name)

/-- `Analysis.raw_fastqs`: files carrying the `fastqs` role-key with no
producing task. -/
def raw_fastqs (A : AnalysisG) : List GSFile :=
  A.files.filter (fun f => decide ("fastqs" ∈ f.filekeys ∧ f.task = none))

/-- `Analysis.search_up`, with explicit `fuel` bounding the recursion
depth (the Python generator recurses without bound and diverges on a
cyclic graph, cf. spec §9).  On a name match, yield the task's output
files (input files when `inputs` is set) carrying the role-key; then
recurse into the distinct producing tasks of the task's input files,
skipping the `none` producer of raw inputs.  Python's `set(...)` is
modelled by `List.dedup` (iteration order of a Python set is
unspecified). -/
def search_up (A : AnalysisG) : Nat → BuiltTask → String → String → Bool →
    List GSFile
  | 0, _, _, _, _ => []
  | fuel + 1, t, name, key, inputs =>
    (if t.task_name = name then
      (if inputs then resolveFiles A t.input_files
       else resolveFiles A t.output_files).filter
        (fun f => decide (key ∈ f.filekeys))
     else []) ++
    ((resolveFiles A t.input_files).map (·.task)).dedup.flatMap (fun p =>
      ((p.bind A.tasks.get?).map
        (fun t2 => search_up A fuel t2 name key inputs)).getD [])

/-- Concatenation over possibly-failed sub-searches: `none` anywhere
poisons the whole result, matching a Python exception thrown while a
generator is being drained (no partial results survive `list(...)`). -/
def optConcat {α : Type} : List (Option (List α)) → Option (List α)
  | [] => some []
  | o :: os => o.bind (fun l => (optConcat os).map (fun r => l ++ r))

/-- `Analysis.search_down`, fuel-bounded like `search_up`.  `none`
models the `TypeError` Python raises when
`reduce(operator.concat, map(lambda x: x.used_by_tasks, task.output_files))`
is applied to an empty sequence, i.e. whenever the current task's
`output_files` list is empty; on a name match the matching output
files are yielded before the recursion, but a failure anywhere
discards the whole search result. -/
def search_down (A : AnalysisG) : Nat → BuiltTask → String → String →
    Option (List GSFile)
  | 0, _, _, _ => some []
  | fuel + 1, t, name, key =>
    if t.output_files.isEmpty then none
    else
      (optConcat ((((resolveFiles A t.output_files).flatMap
          (·.used_by_tasks)).dedup).map (fun ti =>
            ((A.tasks.get? ti).map
              (fun t2 => search_down A fuel t2 name key)).getD (some [])))).map
        (fun rest =>
          (if t.task_name = name then
            (resolveFiles A t.output_files).filter
              (fun f => decide (key ∈ f.filekeys))
          else []) ++ rest)

/-- Values stored in portal records and candidate payloads.  Only the
shapes the engine actually reads and writes are needed: strings,
integers, lists of strings (aliases, `derived_from`), and JSON null. -/
inductive EVal where
  | str : String → EVal
  | nat : Nat → EVal
  | list : List String → EVal
  | null : EVal
deriving DecidableEq

/-- A Python dict as observed through `.get`/`[...]`: an association
list in which the most recently written binding comes first. -/
abbrev EDict := List (String × EVal)

/-- `d.get(k)` on a Python dict: the most recent binding, or `None`. -/
def dget (d : EDict) (k : String) : Option EVal :=
  (d.find? (fun kv => kv.1 == k)).map (·.2)

/-- `d[k] = v`: a new binding shadowing any earlier one. -/
def dset (d : EDict) (k : String) (v : EVal) : EDict := (k, v) :: d

/-- `d.update(props)`: every key of `props` shadows `d`'s binding.
`props` is itself in most-recent-first order, so plain concatenation
gives the right `dget` observables. -/
def dupdate (d props : EDict) : EDict := props ++ d

/-- String rendering used in `'/files/{}/'.format(accession_id)`.
Accessions are strings on the portal; the other cases mirror Python's
rendering of `None`/ints and are unreachable for real records. -/
def pyStr : Option EVal → String
  | none => "None"
  | some (.str s) => s
  | some (.nat n) => toString n
  | some .null => "None"
  | some (.list _) => "[...]"

/-- The portal connection's external behaviour that is not determined
by the engine: whether the portal rejects a `post` (e.g. a 409
Conflict), and with which exception message. -/
structure Conn where
  post_error : EDict → Option String

/-- The engine's mutable run state: the remote portal's records, the
in-run submission cache `Accession.new_files`, a fresh-accession
counter, and counters of the create (`conn.post`), update
(`conn.patch`) and `backend.download` calls issued. -/
structure AccState where
  portal : List EDict
  new_files : List EDict
  nextId : Nat
  posts : Nat
  patches : Nat
  downloads : Nat
deriving DecidableEq

/-- The per-run context of an `Accession` object: the built analysis,
the backend, the connection oracle, the authenticated user
(`Accession.current_user`), the lab/award installed by
`set_lab_award`, and the QC-attachment methods.  The QC methods
(`attach_idr_qc_to` etc.) read external QC JSON and post quality
metrics; their internals are outside every claim, so they are carried
as an opaque effect that may fail with a Python exception message. -/
structure Env where
  analysis : AnalysisG
  backend : Backend
  conn : Conn
  current_user : String
  lab : String
  award : String
  qc_effect : String → EDict → GSFile → AccState → Except String AccState

/-- The accession assigned to the `n`-th record created in this model
of the portal. -/
def freshAcc (n : Nat) : String := "REC" ++ toString n

/-- `conn.post(payload)`: the portal either rejects (per the oracle) or
creates a record carrying the payload's fields plus a fresh
`accession`/`@id`, appends it to the portal, and returns it. -/
def conn_post (env : Env) (st : AccState) (payload : EDict) :
    Except String (EDict × AccState) :=
  match env.conn.post_error payload with
  | some msg => .error msg
  | none =>
    let acc := freshAcc st.nextId
    let record := dupdate payload
      [("accession", .str acc), ("@id", .str ("/records/" ++ acc ++ "/"))]
    .ok (record,
      { st with portal := st.portal ++ [record]
                nextId := st.nextId + 1
                posts := st.posts + 1 })

/-- `conn.patch(props)` addressed at the record with the given
accession (the `ENCID_KEY` set by `Accession.patch_file`): merge the
properties into that record in place and return the updated record.
A missing record is a portal-side HTTP error. -/
def conn_patch (st : AccState) (acc : Option EVal) (props : EDict) :
    Except String (EDict × AccState) :=
  match st.portal.find? (fun r => dget r "accession" == acc) with
  | some r =>
    let r2 := dupdate r props
    .ok (r2,
      { st with portal := st.portal.map
                  (fun q => if dget q "accession" == acc then dupdate q props else q)
                patches := st.patches + 1 })
  | none => .error "Not Found"

/-- `Accession.file_at_portal`: hash the file, search the portal by
content hash, and re-fetch the first hit by its accession.  (The
Python search also filters on `type=File`; the model's portal holds
only file records.) -/
def file_at_portal (st : AccState) (bk : Backend) (fn : Loc) : Option EDict :=
  match st.portal.find?
      (fun r => dget r "md5sum" == some (.str (bk.md5sum fn))) with
  | some hit => st.portal.find? (fun r => dget r "accession" == dget hit "accession")
  | none => none

/-- `Accession.accession_file(encode_file, gs_file)`:
 * no portal record with the file's hash — download locally, attach the
   local path, `post`, then `patch` the permanent
   `submitted_file_name`, cache and return the patched record;
 * an existing record with status `deleted`/`revoked` — merge the
   candidate's fields plus the current user into it via `patch`, cache
   and return it;
 * otherwise — return the existing record unchanged (no mutation). -/
def accession_file (env : Env) (st : AccState) (encode_file : EDict)
    (gs_file : GSFile) : Except String (EDict × AccState) :=
  match file_at_portal st env.backend gs_file.filename with
  | none =>
    match conn_post env { st with downloads := st.downloads + 1 }
        (dset encode_file "submitted_file_name"
          (.str (env.backend.download_path gs_file.filename))) with
    | .error e => .error e
    | .ok (posted, st2) =>
      match conn_patch st2 (dget posted "accession")
          [("submitted_file_name", .str gs_file.filename)] with
      | .error e => .error e
      | .ok (patched, st3) =>
        .ok (patched, { st3 with new_files := st3.new_files ++ [patched] })
  | some fe =>
    if dget fe "status" = some (.str "deleted") ∨
       dget fe "status" = some (.str "revoked") then
      match conn_patch st (dget fe "accession")
          (dupdate (dupdate encode_file
              [("submitted_file_name", .str gs_file.filename)])
            [("submitted_by", .str env.current_user)]) with
      | .error e => .error e
      | .ok (patched, st1) =>
        .ok (patched, { st1 with new_files := st1.new_files ++ [patched] })
    else
      .ok (fe, st)

/-- The exception message of `Accession.get_derived_from` when no
ancestor matched. -/
def missingAllMsg : String :=
  "Missing all of the derived_from files on the portal"

/-- The exception message of `Accession.get_derived_from` when the
deduplicated matches do not cover every resolved ancestor. -/
def missingSomeMsg : String :=
  "Missing some of the derived_from files on the portal"

/-- The deduplicated ancestor artifacts
`list(set(list(self.analysis.search_up(...))))`. -/
def derived_from_files_of (A : AnalysisG) (fuel : Nat) (t : BuiltTask)
    (task_name filekey : String) (inputs : Bool) : List GSFile :=
  (search_up A fuel t task_name filekey inputs).dedup

/-- One iteration of the matching loop in `get_derived_from`: an
accessioned record matches an ancestor artifact when their content
hashes agree, except that a truthy `output_type` discriminator skips
records of a different output type.  The yielded value is
`encode_file.get('accession')`. -/
def match_entry (output_type : Option String) (gf : GSFile) (ef : EDict) :
    Option (Option EVal) :=
  if dget ef "md5sum" = some (.str gf.md5sum) then
    match output_type with
    | some ot =>
      if ot ≠ "" ∧ dget ef "output_type" ≠ some (.str ot) then none
      else some (dget ef "accession")
    | none => some (dget ef "accession")
  else none

/-- The deduplicated matched accessions
(`list(set(derived_from_accession_ids))`). -/
def matched_ids (dff : List GSFile) (accessioned : List EDict)
    (output_type : Option String) : List (Option EVal) :=
  (dff.flatMap (fun gf => accessioned.filterMap (match_entry output_type gf))).dedup

/-- The records `get_derived_from` matches against: the per-ancestor
portal lookups with the `None`s dropped, followed by the in-run
submission cache `self.new_files`. -/
def accessioned_files_of (env : Env) (st : AccState) (dff : List GSFile) :
    List EDict :=
  (dff.map (fun gf => file_at_portal st env.backend gf.filename)).filterMap id
    ++ st.new_files

/-- `Accession.get_derived_from(file, task_name, filekey, output_type,
inputs)`: resolve ancestors by an upward search from the file's
producing task, match them by content hash against the portal and the
in-run cache, deduplicate, and fail when no (resp. not exactly as many)
matches were found.  A file with no producing task crashes in Python
(`None.task_name`), modelled as an `AttributeError`. -/
def get_derived_from (env : Env) (st : AccState) (fuel : Nat) (file : GSFile)
    (task_name filekey : String) (output_type : Option String)
    (inputs : Bool) : Except String (List String) :=
  match file.task with
  | none => .error "AttributeError"
  | some ti =>
    match env.analysis.tasks.get? ti with
    | none => .error "AttributeError"
    | some t =>
      let dff := derived_from_files_of env.analysis fuel t task_name filekey inputs
      let ids := matched_ids dff (accessioned_files_of env st dff) output_type
      if ids.isEmpty then .error missingAllMsg
      else if ids.length ≠ dff.length then .error missingSomeMsg
      else .ok (ids.map (fun a => "/files/" ++ pyStr a ++ "/"))

/-- One ancestor spec of a step's `derived_from_files` entry. -/
structure AncestorSpec where
  derived_from_task : String
  derived_from_filekey : String
  derived_from_output_type : Option String
  derived_from_inputs : Bool

/-- `Accession.get_derived_from_all`: resolve every ancestor spec and
flatten the resulting reference lists (the `inputs` parameter exists in
the source but is unused there: each spec carries its own
`derived_from_inputs`). -/
def get_derived_from_all (env : Env) (st : AccState) (fuel : Nat)
    (file : GSFile) : List AncestorSpec → Bool → Except String (List String)
  | [], _ => .ok []
  | spec :: rest, inputs =>
    match get_derived_from env st fuel file spec.derived_from_task
      spec.derived_from_filekey spec.derived_from_output_type
      spec.derived_from_inputs with
    | .error e => .error e
    | .ok r =>
      match get_derived_from_all env st fuel file rest inputs with
      | .error e => .error e
      | .ok rs => .ok (r ++ rs)

/-- `Accession.lab_pi`: `COMMON_METADATA['lab'].split('/labs/')[1].split('/')[0]`.
(The missing-`/labs/` case raises `IndexError` in Python; the model
defaults to `""`, a case no claim exercises.) -/
def lab_pi (lab : String) : String :=
  (((lab.splitOn "/labs/").getD 1 "").splitOn "/").headD ""

/-- The reference assemblies recognised by the engine. -/
def ASSEMBLIES : List String := ["GRCh38", "mm10"]

/-- `Accession.assembly`: the first entry of `ASSEMBLIES` occurring as
a substring of the `read_genome_tsv` task's `genome.ref_fa` output.
Python raises `IndexError` when no such task exists, and
`AttributeError`/`TypeError` when the nested values have unexpected
shapes. -/
def assembly (A : AnalysisG) : Except String String :=
  match (get_tasks A "read_genome_tsv").head? with
  | none => .error "IndexError"
  | some t =>
    match ((t.outputs.find? (fun kv => kv.1 == "genome")).map (·.2)) with
    | none =>
      .ok ((ASSEMBLIES.filter (fun r => containsSub r "")).headD "")
    | some (JValue.jdict kvs) =>
      match jdict_find kvs "ref_fa" with
      | none => .ok ((ASSEMBLIES.filter (fun r => containsSub r "")).headD "")
      | some (JValue.jstr s) =>
        .ok ((ASSEMBLIES.filter (fun r => containsSub r s)).headD "")
      | some _ => .error "TypeError"
    | some _ => .error "AttributeError"

/-- `Accession.dataset`: the `dataset` field of the portal record of
the first raw fastq.  No raw fastqs is an `IndexError`; an
unaccessioned fastq makes Python call `.get` on `None`. -/
def dataset_of (env : Env) (st : AccState) : Except String EVal :=
  match (raw_fastqs env.analysis).head? with
  | none => .error "IndexError"
  | some f =>
    match file_at_portal st env.backend f.filename with
    | none => .error "AttributeError"
    | some r => .ok ((dget r "dataset").getD .null)

/-- The fixed organisational metadata installed by `set_lab_award`. -/
def COMMON_METADATA (lab award : String) : EDict :=
  [("lab", .str lab), ("award", .str award)]

/-- `Accession.file_from_template`: the candidate payload for one
output file.  (`assemblyStr` is `self.assembly` and `dataset` is
`self.dataset`, both computed by the caller in source evaluation
order.) -/
def file_from_template (env : Env) (file : GSFile)
    (file_format output_type : String) (step_run : EDict)
    (derived_from : List String) (dataset : EVal) (assemblyStr : String)
    (file_format_type : Option String) : EDict :=
  let file_name := ((file.filename.splitOn "gs://").getLastD "").replace "/" "-"
  let obj : EDict :=
    [("status", .str "uploading"),
     ("aliases", .list [lab_pi env.lab ++ ":" ++ file_name]),
     ("file_format", .str file_format),
     ("output_type", .str output_type),
     ("assembly", .str assemblyStr),
     ("dataset", dataset),
     ("step_run", (dget step_run "@id").getD .null),
     ("derived_from", .list derived_from),
     ("file_size", .nat file.size),
     ("md5sum", .str file.md5sum)]
  let obj :=
    match file_format_type with
    | some fft => if fft ≠ "" then dset obj "file_format_type" (.str fft) else obj
    | none => obj
  let obj := dset obj "_profile_key" (.str "file")
  dupdate obj (COMMON_METADATA env.lab env.award)

/-- `Accession.make_file_obj`: resolve the ancestors, then build the
candidate payload (evaluating `self.dataset` and `self.assembly` in
source order, each of which may raise). -/
def make_file_obj (env : Env) (st : AccState) (fuel : Nat) (file : GSFile)
    (file_format output_type : String) (step_run : EDict)
    (derived_from_files : List AncestorSpec)
    (file_format_type : Option String) (inputs : Bool) :
    Except String EDict :=
  match get_derived_from_all env st fuel file derived_from_files inputs with
  | .error e => .error e
  | .ok derived_from =>
    match dataset_of env st with
    | .error e => .error e
    | .ok ds =>
      match assembly env.analysis with
      | .error e => .error e
      | .ok asm =>
        .ok (file_from_template env file file_format output_type step_run
          derived_from ds asm file_format_type)

/-- Per-output-file parameters of a step spec (`wdl_files` entries). -/
structure FileParams where
  filekey : String
  file_format : String
  output_type : String
  file_format_type : Option String
  derived_from_files : List AncestorSpec
  possible_duplicate : Bool
  quality_metrics : List String

/-- One step spec of the accessioning steps document. -/
structure StepParams where
  dcc_step_run : String
  dcc_step_version : String
  wdl_task_name : String
  wdl_files : List FileParams

/-- The metric names `QC_MAP` knows how to dispatch. -/
def QC_MAP_keys : List String := ["cross_correlation", "samtools_flagstat", "idr"]

/-- `Accession.get_or_make_step_run`: post an `analysis_step_runs`
payload whose alias embeds the matching task's docker tag.  Python
raises `IndexError` when no task matches or the image tag has no colon,
and `AttributeError` when the image is `None`. -/
def get_or_make_step_run (env : Env) (st : AccState) (labPfx run_name
    step_version task_name : String) : Except String (EDict × AccState) :=
  match (get_tasks env.analysis task_name).head? with
  | none => .error "IndexError"
  | some t =>
    match t.docker_image with
    | none => .error "AttributeError"
    | some img =>
      match (img.splitOn ":").get? 1 with
      | none => .error "IndexError"
      | some docker_tag =>
        conn_post env st
          [("aliases", .list [labPfx ++ ":" ++ run_name ++ "-" ++ docker_tag]),
           ("status", .str "released"),
           ("analysis_step_version", .str step_version),
           ("_profile_key", .str "analysis_step_runs")]

/-- The `(file_params, output_file)` iterations of `accession_step`'s
triple loop, flattened in source iteration order: matching tasks, then
declared `wdl_files`, then the task's output files carrying the
file-params' role-key. -/
def step_items (A : AnalysisG) (p : StepParams) : List (FileParams × GSFile) :=
  (get_tasks A p.wdl_task_name).flatMap (fun task =>
    p.wdl_files.flatMap (fun fp =>
      ((resolveFiles A task.output_files).filter
          (fun f => decide (fp.filekey ∈ f.filekeys))).map (fun f => (fp, f))))

/-- The body of `accession_step`'s `try`: build the candidate payload
and submit it. -/
def step_file_attempt (env : Env) (fuel : Nat) (step_run : EDict)
    (fp : FileParams) (f : GSFile) (st : AccState) :
    Except String (EDict × AccState) :=
  match make_file_obj env st fuel f fp.file_format fp.output_type step_run
    fp.derived_from_files fp.file_format_type false with
  | .error e => .error e
  | .ok obj => accession_file env st obj f

/-- The `except` clause of `accession_step`'s per-file loop: `continue`
(skip the file) when `'Conflict' in str(e)` and the spec flags a
possible duplicate, or when `'Missing all of the derived_from' in
str(e)`; re-raise anything else. -/
def shouldSkip (e : String) (possible_duplicate : Bool) : Bool :=
  (containsSub "Conflict" e && possible_duplicate) ||
    containsSub "Missing all of the derived_from" e

/-- The QC-attachment loop after a successful submission:
`QC_MAP[qc]` raises `KeyError` for unknown metric names, otherwise the
(externally modelled) attachment effect runs. -/
def run_qcs (env : Env) : List String → EDict → GSFile → AccState →
    Except String AccState
  | [], _, _, st => .ok st
  | qc :: rest, ef, f, st =>
    if qc ∈ QC_MAP_keys then
      match env.qc_effect qc ef f st with
      | .error e => .error e
      | .ok st2 => run_qcs env rest ef f st2
    else .error "KeyError"

/-- The per-file loop of `accession_step` over the flattened
iterations, accumulating the accessioned records in order.  A failed
attempt is skipped exactly when `shouldSkip` holds; QC failures happen
outside the `try` and always propagate. -/
def accession_step_items (env : Env) (fuel : Nat) (step_run : EDict) :
    List (FileParams × GSFile) → AccState → List EDict →
    Except String (List EDict × AccState)
  | [], st, acc => .ok (acc, st)
  | (fp, f) :: rest, st, acc =>
    match step_file_attempt env fuel step_run fp f st with
    | .error e =>
      if shouldSkip e fp.possible_duplicate then
        accession_step_items env fuel step_run rest st acc
      else .error e
    | .ok (ef, st2) =>
      match run_qcs env fp.quality_metrics ef f st2 with
      | .error e => .error e
      | .ok st3 => accession_step_items env fuel step_run rest st3 (acc ++ [ef])

/-- `Accession.accession_step`: create the step run, then run the
per-file loop. -/
def accession_step (env : Env) (fuel : Nat) (st : AccState)
    (p : StepParams) : Except String (List EDict × AccState) :=
  match get_or_make_step_run env st (lab_pi env.lab)
    p.dcc_step_run p.dcc_step_version p.wdl_task_name with
  | .error e => .error e
  | .ok (step_run, st1) =>
    accession_step_items env fuel step_run (step_items env.analysis p) st1 []

/-- `Accession.accession_steps`: apply `accession_step` to every step
spec sequentially, in declared order, threading the run state (and with
it the in-run submission cache). -/
def accession_steps (env : Env) (fuel : Nat) :
    List StepParams → AccState → Except String AccState
  | [], st => .ok st
  | p :: ps, st =>
    match accession_step env fuel st p with
    | .error e => .error e
    | .ok (_, st2) => accession_steps env fuel ps st2

/-! ### Concrete scenario used by the witnesses

A two-task run: `align` reads two raw fastqs and produces `x.bam`;
`dedup` consumes `x.bam` and produces `y.bam`.  The backend hashes a
location `fn` to `"md5-" ++ fn`. -/

/-- Witness backend. -/
def bkW : Backend := ⟨fun fn => "md5-" ++ fn, fun _ => 10, fun _ => "/tmp/dl"⟩

/-- Witness `align` task metadata. -/
def taW : TaskData :=
  ⟨"align",
   [("fastqs", .jlist (.cons (.jstr "gs://b/f1.fastq")
     (.cons (.jstr "gs://b/f2.fastq") .nil)))],
   [("bam", .jstr "gs://b/x.bam")],
   some "img:v1"⟩

/-- Witness `dedup` task metadata. -/
def tdW : TaskData :=
  ⟨"dedup",
   [("bam", .jstr "gs://b/x.bam")],
   [("nodup_bam", .jstr "gs://b/y.bam")],
   some "img:v1"⟩

/-- The witness run metadata. -/
def tsW : List TaskData := [taW, tdW]

/-- The witness provenance graph, as built by `make_tasks`. -/
def AW : AnalysisG := ⟨(make_tasks bkW tsW).1, (make_tasks bkW tsW).2⟩

/-- The artifact for `x.bam` in `AW`: produced by task 0, consumed by
task 1. -/
def fxW : GSFile :=
  ⟨"gs://b/x.bam", ["bam"], some 0, [1], "md5-gs://b/x.bam", 10⟩

/-- The artifact for `y.bam` in `AW`: produced by task 1. -/
def fyW : GSFile :=
  ⟨"gs://b/y.bam", ["nodup_bam"], some 1, [], "md5-gs://b/y.bam", 10⟩

/-- The built `dedup` task of `AW`. -/
def tdBuiltW : BuiltTask :=
  ⟨"dedup",
   [("bam", .jstr "gs://b/x.bam")],
   [("nodup_bam", .jstr "gs://b/y.bam")],
   [0], [1], some "img:v1"⟩

/-- A portal record for `x.bam`. -/
def r1W : EDict :=
  [("accession", .str "A1"), ("md5sum", .str "md5-gs://b/x.bam")]

/-- A second record sharing `x.bam`'s content hash. -/
def r2W : EDict :=
  [("accession", .str "A2"), ("md5sum", .str "md5-gs://b/x.bam")]

/-- Witness environment over `AW` with an always-accepting portal and
no-op QC effects. -/
def envW : Env :=
  ⟨AW, bkW, ⟨fun _ => none⟩, "/users/u/", "/labs/lab1/", "AW1",
   fun _ _ _ st => .ok st⟩

/-- Run state: the portal knows `A1`, nothing accessioned this run. -/
def stOkW : AccState := ⟨[r1W], [], 0, 0, 0, 0⟩

/-- Run state: the portal knows `A1` and the in-run cache holds `A2`,
which shares `x.bam`'s hash. -/
def stDupW : AccState := ⟨[r1W], [r2W], 0, 0, 0, 0⟩

/-- A live (released) record whose hash every `bkC`-hashed file has. -/
def rLiveC : EDict :=
  [("accession", .str "A1"), ("md5sum", .str "m"), ("status", .str "released")]

/-- A constant-hash backend for the `accession_file` witnesses. -/
def bkC : Backend := ⟨fun _ => "m", fun _ => 5, fun _ => "/tmp/f"⟩

/-- Environment with an empty analysis for the `accession_file`
witnesses. -/
def envC : Env :=
  ⟨⟨[], []⟩, bkC, ⟨fun _ => none⟩, "/users/u/", "/labs/lab1/", "AW1",
   fun _ _ _ st => .ok st⟩

/-- Run state whose portal already holds the live record `rLiveC`. -/
def stLiveC : AccState := ⟨[rLiveC], [], 0, 0, 0, 0⟩

/-- A deleted record with hash `m`. -/
def rDelC : EDict :=
  [("accession", .str "A3"), ("md5sum", .str "m"), ("status", .str "deleted")]

/-- Run state whose portal holds only the deleted record `rDelC`. -/
def stDelC : AccState := ⟨[rDelC], [], 0, 0, 0, 0⟩

/-- Empty run state: nothing on the portal. -/
def stEmptyC : AccState := ⟨[], [], 0, 0, 0, 0⟩

/-- A file artifact hashed to `m` by `bkC`. -/
def gsC : GSFile := ⟨"gs://b/z.bam", ["bam"], none, [], "m", 5⟩

/-- An analysis for the `search_down` crash witness: `align` produces a
file consumed by a `qc` task that has no recorded outputs. -/
def A9W : AnalysisG :=
  ⟨[⟨"align", [], [("bam", .jstr "gs://b/x.bam")], [], [0], some "img:v1"⟩,
    ⟨"qc", [("bam", .jstr "gs://b/x.bam")], [], [0], [], some "img:v1"⟩],
   [⟨"gs://b/x.bam", ["bam"], some 0, [1], "md5-gs://b/x.bam", 10⟩]⟩

/-- Step file-parameters used by the step-loop witness: no ancestor
specs, no QC metrics, not flagged as a possible duplicate. -/
def fpW : FileParams := ⟨"bam", "bam", "alignments", none, [], false, []⟩

/-! ### Lemmas about the graph build (claims C1, C2) -/

@[simp] theorem locs_nil : locs [] = [] := rfl

@[simp] theorem locs_cons (f : GSFile) (fs : List GSFile) :
    locs (f :: fs) = f.filename :: locs fs := rfl

@[simp] theorem locs_append (l1 l2 : List GSFile) :
    locs (l1 ++ l2) = locs l1 ++ locs l2 := by
  simp [locs]

@[simp] theorem updateFound_filename (key : String) (u : Option Nat)
    (f : GSFile) : (updateFound key u f).filename = f.filename := by
  simp [updateFound]

@[simp] theorem updateFound_task (key : String) (u : Option Nat)
    (f : GSFile) : (updateFound key u f).task = f.task := by
  simp [updateFound]

@[simp] theorem updateFound_md5sum (key : String) (u : Option Nat)
    (f : GSFile) : (updateFound key u f).md5sum = f.md5sum := by
  simp [updateFound]

@[simp] theorem updateFound_size (key : String) (u : Option Nat)
    (f : GSFile) : (updateFound key u f).size = f.size := by
  simp [updateFound]

theorem updateFound_usedBy_sub (key : String) (u : Option Nat) (f : GSFile)
    {x : Nat} (hx : x ∈ f.used_by_tasks) :
    x ∈ (updateFound key u f).used_by_tasks := by
  simp only [updateFound]
  cases u with
  | none => exact hx
  | some t =>
    by_cases h : t ∈ f.used_by_tasks <;> simp [h, hx]

theorem updateFound_usedBy_mem (key : String) (t : Nat) (f : GSFile) :
    t ∈ (updateFound key (some t) f).used_by_tasks := by
  simp only [updateFound]
  by_cases h : t ∈ f.used_by_tasks <;> simp [h]

@[simp] theorem newGSFile_filename (bk : Backend) (key : String) (fn : Loc)
    (t u : Option Nat) : (newGSFile bk key fn t u).filename = fn := rfl

@[simp] theorem newGSFile_task (bk : Backend) (key : String) (fn : Loc)
    (t u : Option Nat) : (newGSFile bk key fn t u).task = t := rfl

/-- The filenames after `get_or_make_file`: unchanged on a hit, the new
filename appended on a miss. -/
theorem locs_get_or_make_file (bk : Backend) (key : String) (fn : Loc)
    (t u : Option Nat) (files : List GSFile) :
    locs (get_or_make_file bk key fn t u files).1 =
      if fn ∈ locs files then locs files else locs files ++ [fn] := by
  induction files with
  | nil => simp [get_or_make_file, locs]
  | cons f fs ih =>
    by_cases h : f.filename = fn
    · simp [get_or_make_file, h]
    · simp only [get_or_make_file, if_neg h, locs_cons, ih]
      have hne : ¬ fn = f.filename := fun e => h e.symm
      by_cases hm : fn ∈ locs fs <;> simp [hm, hne]

theorem mem_locs_get_or_make_file (bk : Backend) (key : String) (fn x : Loc)
    (t u : Option Nat) (files : List GSFile) :
    x ∈ locs (get_or_make_file bk key fn t u files).1 ↔
      x ∈ locs files ∨ x = fn := by
  rw [locs_get_or_make_file]
  by_cases hm : fn ∈ locs files
  · simp only [if_pos hm]
    constructor
    · exact fun h => Or.inl h
    · rintro (h | rfl)
      · exact h
      · exact hm
  · simp [if_neg hm]

theorem nodup_locs_get_or_make_file (bk : Backend) (key : String) (fn : Loc)
    (t u : Option Nat) (files : List GSFile)
    (h : (locs files).Nodup) :
    (locs (get_or_make_file bk key fn t u files).1).Nodup := by
  rw [locs_get_or_make_file]
  by_cases hm : fn ∈ locs files
  · simpa [if_pos hm]
  · simp only [if_neg hm]
    exact List.Nodup.append h (List.nodup_singleton fn)
      (fun a ha hb => hm (by rwa [List.mem_singleton.mp hb] at ha))

/-- A miss appends the freshly built file. -/
theorem get_or_make_file_miss (bk : Backend) (key : String) (fn : Loc)
    (t u : Option Nat) (files : List GSFile) (h : fn ∉ locs files) :
    (get_or_make_file bk key fn t u files).1 =
      files ++ [newGSFile bk key fn t u] := by
  induction files with
  | nil => simp [get_or_make_file]
  | cons f fs ih =>
    have h1 : ¬ f.filename = fn := by
      intro e
      exact h (by simp [e])
    have h2 : fn ∉ locs fs := fun hm => h (by simp [hm])
    simp [get_or_make_file, h1, ih h2]

/-- The invariant tracked through the build for one location: some
arena entry has this filename, exactly this producer, and at least
these consumers. -/
def EntryInv (loc : Loc) (prod : Option Nat) (S : List Nat)
    (files : List GSFile) : Prop :=
  ∃ g ∈ files, g.filename = loc ∧ g.task = prod ∧ ∀ x ∈ S, x ∈ g.used_by_tasks

theorem entryInv_get_or_make_file (bk : Backend) (key : String) (fn loc : Loc)
    (t u : Option Nat) (prod : Option Nat) (S : List Nat)
    (files : List GSFile) (h : EntryInv loc prod S files) :
    EntryInv loc prod S (get_or_make_file bk key fn t u files).1 := by
  induction files with
  | nil => rcases h with ⟨g, hg, _⟩; simp at hg
  | cons f fs ih =>
    rcases h with ⟨g, hg, hname, htask, hused⟩
    by_cases hf : f.filename = fn
    · simp only [get_or_make_file, if_pos hf]
      rcases List.mem_cons.mp hg with rfl | hgfs
      · exact ⟨updateFound key u g, by simp, by simpa using hname,
          by simpa using htask,
          fun x hx => updateFound_usedBy_sub key u g (hused x hx)⟩
      · exact ⟨g, List.mem_cons_of_mem _ hgfs, hname, htask, hused⟩
    · simp only [get_or_make_file, if_neg hf]
      rcases List.mem_cons.mp hg with rfl | hgfs
      · exact ⟨g, List.mem_cons_self _ _, hname, htask, hused⟩
      · rcases ih ⟨g, hgfs, hname, htask, hused⟩ with ⟨g2, hg2, h2⟩
        exact ⟨g2, List.mem_cons_of_mem _ hg2, h2⟩

/-- A hit with a consumer argument records that consumer on the (by
`Nodup`, unique) entry with the hit filename. -/
theorem entryInv_get_or_make_file_hit (bk : Backend) (key : String)
    (loc : Loc) (t : Option Nat) (x : Nat) (prod : Option Nat) (S : List Nat)
    (files : List GSFile) (hnd : (locs files).Nodup)
    (h : EntryInv loc prod S files) :
    EntryInv loc prod (x :: S)
      (get_or_make_file bk key loc t (some x) files).1 := by
  induction files with
  | nil => rcases h with ⟨g, hg, _⟩; simp at hg
  | cons f fs ih =>
    rcases h with ⟨g, hg, hname, htask, hused⟩
    by_cases hf : f.filename = loc
    · simp only [get_or_make_file, if_pos hf]
      have hgf : g = f := by
        rcases List.mem_cons.mp hg with rfl | hgfs
        · rfl
        · exfalso
          have : f.filename ∈ locs fs := by
            rw [hf, ← hname]
            exact List.mem_map_of_mem _ hgfs
          exact (List.nodup_cons.mp (by simpa using hnd)).1 this
      subst hgf
      refine ⟨updateFound key (some x) g, by simp, by simpa using hname,
        by simpa using htask, ?_⟩
      intro y hy
      rcases List.mem_cons.mp hy with rfl | hyS
      · exact updateFound_usedBy_mem key y g
      · exact updateFound_usedBy_sub key (some x) g (hused y hyS)
    · simp only [get_or_make_file, if_neg hf]
      have hgfs : g ∈ fs := by
        rcases List.mem_cons.mp hg with rfl | hgfs
        · exact absurd hname hf
        · exact hgfs
      have hnd2 : (locs fs).Nodup := (List.nodup_cons.mp (by simpa using hnd)).2
      rcases ih hnd2 ⟨g, hgfs, hname, htask, hused⟩ with ⟨g2, hg2, h2⟩
      exact ⟨g2, List.mem_cons_of_mem _ hg2, h2⟩

theorem mem_locs_pairs (bk : Backend) (t u : Option Nat)
    (ps : List (String × Loc)) (files : List GSFile) (x : Loc) :
    x ∈ locs (get_or_make_files_pairs bk t u ps files).1 ↔
      x ∈ locs files ∨ x ∈ ps.map (·.2) := by
  induction ps generalizing files with
  | nil => simp [get_or_make_files_pairs]
  | cons p rest ih =>
    obtain ⟨key, fn⟩ := p
    simp only [get_or_make_files_pairs, ih, mem_locs_get_or_make_file,
      List.map_cons, List.mem_cons]
    tauto

theorem nodup_locs_pairs (bk : Backend) (t u : Option Nat)
    (ps : List (String × Loc)) (files : List GSFile)
    (h : (locs files).Nodup) :
    (locs (get_or_make_files_pairs bk t u ps files).1).Nodup := by
  induction ps generalizing files with
  | nil => simpa [get_or_make_files_pairs]
  | cons p rest ih =>
    obtain ⟨key, fn⟩ := p
    exact ih _ (nodup_locs_get_or_make_file bk key fn t u files h)

theorem entryInv_pairs (bk : Backend) (t u : Option Nat)
    (ps : List (String × Loc)) (files : List GSFile)
    (loc : Loc) (prod : Option Nat) (S : List Nat)
    (h : EntryInv loc prod S files) :
    EntryInv loc prod S (get_or_make_files_pairs bk t u ps files).1 := by
  induction ps generalizing files with
  | nil => simpa [get_or_make_files_pairs]
  | cons p rest ih =>
    obtain ⟨key, fn⟩ := p
    exact ih _ (entryInv_get_or_make_file bk key fn loc t u prod S files h)

theorem pairs_cons_fst (bk : Backend) (t u : Option Nat) (key : String)
    (fn : Loc) (rest : List (String × Loc)) (files : List GSFile) :
    (get_or_make_files_pairs bk t u ((key, fn) :: rest) files).1 =
      (get_or_make_files_pairs bk t u rest
        (get_or_make_file bk key fn t u files).1).1 := rfl

/-- Pass-1 core: processing a section that references `loc`, absent so
far, creates its entry with the pass's producer and no consumers. -/
theorem entryInv_pairs_create (bk : Backend) (t u : Option Nat)
    (ps : List (String × Loc)) (files : List GSFile) (loc : Loc)
    (habs : loc ∉ locs files) (hmem : loc ∈ ps.map (·.2)) :
    EntryInv loc t [] (get_or_make_files_pairs bk t u ps files).1 := by
  induction ps generalizing files with
  | nil => simp at hmem
  | cons p rest ih =>
    obtain ⟨key, fn⟩ := p
    rw [pairs_cons_fst]
    by_cases hf : fn = loc
    · subst hf
      refine entryInv_pairs bk t u rest _ fn t [] ?_
      rw [get_or_make_file_miss bk key fn t u files habs]
      exact ⟨newGSFile bk key fn t u, by simp, by simp, by simp, by simp⟩
    · have habs2 : loc ∉ locs (get_or_make_file bk key fn t u files).1 := by
        rw [mem_locs_get_or_make_file]
        rintro (h | rfl)
        · exact habs h
        · exact hf rfl
      have hmem2 : loc ∈ rest.map (·.2) := by
        simp only [List.map_cons, List.mem_cons] at hmem
        rcases hmem with h | h
        · exact absurd h.symm hf
        · exact h
      exact ih _ habs2 hmem2

/-- Pass-2 core: processing a section that references `loc` records the
pass's task index as a consumer on the unique entry for `loc`. -/
theorem entryInv_pairs_hit (bk : Backend) (t : Option Nat) (x : Nat)
    (ps : List (String × Loc)) (files : List GSFile) (loc : Loc)
    (prod : Option Nat) (S : List Nat) (hnd : (locs files).Nodup)
    (h : EntryInv loc prod S files) (hmem : loc ∈ ps.map (·.2)) :
    EntryInv loc prod (x :: S)
      (get_or_make_files_pairs bk t (some x) ps files).1 := by
  induction ps generalizing files with
  | nil => simp at hmem
  | cons p rest ih =>
    obtain ⟨key, fn⟩ := p
    rw [pairs_cons_fst]
    by_cases hf : fn = loc
    · subst hf
      exact entryInv_pairs bk t (some x) rest _ fn prod (x :: S)
        (entryInv_get_or_make_file_hit bk key fn t x prod S files hnd h)
    · have hmem2 : loc ∈ rest.map (·.2) := by
        simp only [List.map_cons, List.mem_cons] at hmem
        rcases hmem with h2 | h2
        · exact absurd h2.symm hf
        · exact h2
      exact ih _ (nodup_locs_get_or_make_file bk key fn t (some x) files hnd)
        (entryInv_get_or_make_file bk key fn loc t (some x) prod S files h)
        hmem2

theorem run_pass1_cons_fst (bk : Backend) (i : Nat) (t : TaskData)
    (ts : List TaskData) (files : List GSFile) :
    (run_pass1 bk i (t :: ts) files).1 =
      (run_pass1 bk (i + 1) ts
        (get_or_make_files bk t.outputs (some i) none files).1).1 := rfl

theorem run_pass2_cons_fst (bk : Backend) (i : Nat) (t : TaskData)
    (ts : List TaskData) (files : List GSFile) :
    (run_pass2 bk i (t :: ts) files).1 =
      (run_pass2 bk (i + 1) ts
        (get_or_make_files bk t.inputs none (some i) files).1).1 := rfl

theorem mem_locs_pass1 (bk : Backend) (i : Nat) (ts : List TaskData)
    (files : List GSFile) (x : Loc) :
    x ∈ locs (run_pass1 bk i ts files).1 ↔
      x ∈ locs files ∨ ∃ t ∈ ts, x ∈ out_locs t := by
  induction ts generalizing i files with
  | nil => simp [run_pass1]
  | cons t rest ih =>
    rw [run_pass1_cons_fst, ih]
    rw [get_or_make_files, mem_locs_pairs]
    simp only [out_locs, section_locs, List.mem_cons]
    constructor
    · rintro ((h | h) | ⟨t2, ht2, h⟩)
      · exact Or.inl h
      · exact Or.inr ⟨t, Or.inl rfl, h⟩
      · exact Or.inr ⟨t2, Or.inr ht2, h⟩
    · rintro (h | ⟨t2, (rfl | ht2), h⟩)
      · exact Or.inl (Or.inl h)
      · exact Or.inl (Or.inr h)
      · exact Or.inr ⟨t2, ht2, h⟩

theorem mem_locs_pass2 (bk : Backend) (i : Nat) (ts : List TaskData)
    (files : List GSFile) (x : Loc) :
    x ∈ locs (run_pass2 bk i ts files).1 ↔
      x ∈ locs files ∨ ∃ t ∈ ts, x ∈ in_locs t := by
  induction ts generalizing i files with
  | nil => simp [run_pass2]
  | cons t rest ih =>
    rw [run_pass2_cons_fst, ih]
    rw [get_or_make_files, mem_locs_pairs]
    simp only [in_locs, section_locs, List.mem_cons]
    constructor
    · rintro ((h | h) | ⟨t2, ht2, h⟩)
      · exact Or.inl h
      · exact Or.inr ⟨t, Or.inl rfl, h⟩
      · exact Or.inr ⟨t2, Or.inr ht2, h⟩
    · rintro (h | ⟨t2, (rfl | ht2), h⟩)
      · exact Or.inl (Or.inl h)
      · exact Or.inl (Or.inr h)
      · exact Or.inr ⟨t2, ht2, h⟩

theorem nodup_locs_pass1 (bk : Backend) (i : Nat) (ts : List TaskData)
    (files : List GSFile) (h : (locs files).Nodup) :
    (locs (run_pass1 bk i ts files).1).Nodup := by
  induction ts generalizing i files with
  | nil => simpa [run_pass1]
  | cons t rest ih =>
    rw [run_pass1_cons_fst]
    exact ih _ _ (nodup_locs_pairs bk (some i) none _ files h)

theorem nodup_locs_pass2 (bk : Backend) (i : Nat) (ts : List TaskData)
    (files : List GSFile) (h : (locs files).Nodup) :
    (locs (run_pass2 bk i ts files).1).Nodup := by
  induction ts generalizing i files with
  | nil => simpa [run_pass2]
  | cons t rest ih =>
    rw [run_pass2_cons_fst]
    exact ih _ _ (nodup_locs_pairs bk none (some i) _ files h)

theorem entryInv_pass1 (bk : Backend) (i : Nat) (ts : List TaskData)
    (files : List GSFile) (loc : Loc) (prod : Option Nat) (S : List Nat)
    (h : EntryInv loc prod S files) :
    EntryInv loc prod S (run_pass1 bk i ts files).1 := by
  induction ts generalizing i files with
  | nil => simpa [run_pass1]
  | cons t rest ih =>
    rw [run_pass1_cons_fst]
    exact ih _ _ (entryInv_pairs bk (some i) none _ files loc prod S h)

theorem entryInv_pass2 (bk : Backend) (i : Nat) (ts : List TaskData)
    (files : List GSFile) (loc : Loc) (prod : Option Nat) (S : List Nat)
    (h : EntryInv loc prod S files) :
    EntryInv loc prod S (run_pass2 bk i ts files).1 := by
  induction ts generalizing i files with
  | nil => simpa [run_pass2]
  | cons t rest ih =>
    rw [run_pass2_cons_fst]
    exact ih _ _ (entryInv_pairs bk none (some i) _ files loc prod S h)

/-- After pass 1, a location produced (uniquely) by the `a`-th
remaining task has an arena entry whose producer is task index
`i + a`. -/
theorem pass1_producer (bk : Backend) (ts : List TaskData) (loc : Loc) :
    ∀ (i a : Nat) (ta : TaskData) (files : List GSFile),
    loc ∉ locs files →
    ts.get? a = some ta →
    loc ∈ out_locs ta →
    (∀ (k : Nat) (tk : TaskData), ts.get? k = some tk →
      loc ∈ out_locs tk → k = a) →
    EntryInv loc (some (i + a)) [] (run_pass1 bk i ts files).1 := by
  induction ts with
  | nil => intro i a ta files _ ha _ _; simp at ha
  | cons t rest ih =>
    intro i a ta files habs ha hout huniq
    cases a with
    | zero =>
      have hta : ta = t := by
        rw [List.get?_cons_zero] at ha
        exact (Option.some.inj ha).symm
      subst hta
      rw [run_pass1_cons_fst]
      refine entryInv_pass1 bk (i + 1) rest _ loc (some i) [] ?_
      have := entryInv_pairs_create bk (some i) none
        (section_pairs ta.outputs) files loc habs
        (by simpa [out_locs, section_locs] using hout)
      simpa [get_or_make_files] using this
    | succ a2 =>
      have hnot : loc ∉ out_locs t := by
        intro hmem
        have := huniq 0 t (List.get?_cons_zero) hmem
        exact Nat.succ_ne_zero a2 this.symm
      rw [run_pass1_cons_fst]
      have habs2 : loc ∉ locs (get_or_make_files bk t.outputs (some i) none files).1 := by
        rw [get_or_make_files, mem_locs_pairs]
        rintro (h | h)
        · exact habs h
        · exact hnot (by simpa [out_locs, section_locs] using h)
      have ha2 : rest.get? a2 = some ta := by
        rwa [List.get?_cons_succ] at ha
      have huniq2 : ∀ (k : Nat) (tk : TaskData), rest.get? k = some tk →
          loc ∈ out_locs tk → k = a2 := by
        intro k tk hk hmem
        have := huniq (k + 1) tk (by rwa [List.get?_cons_succ]) hmem
        omega
      have := ih (i + 1) a2 ta _ habs2 ha2 hout huniq2
      have harith : i + 1 + a2 = i + (a2 + 1) := by omega
      rwa [harith] at this

/-- Pass 2 adds the consuming task's index to the entry of every
location referenced by its input descriptor tree. -/
theorem pass2_consumer (bk : Backend) (ts : List TaskData) (loc : Loc)
    (prod : Option Nat) (S : List Nat) :
    ∀ (i b : Nat) (tb : TaskData) (files : List GSFile),
    (locs files).Nodup →
    EntryInv loc prod S files →
    ts.get? b = some tb →
    loc ∈ in_locs tb →
    EntryInv loc prod ((i + b) :: S) (run_pass2 bk i ts files).1 := by
  induction ts with
  | nil => intro i b tb files _ _ hb _; simp at hb
  | cons t rest ih =>
    intro i b tb files hnd h hb hin
    cases b with
    | zero =>
      have htb : tb = t := by
        rw [List.get?_cons_zero] at hb
        exact (Option.some.inj hb).symm
      subst htb
      rw [run_pass2_cons_fst]
      refine entryInv_pass2 bk (i + 1) rest _ loc prod ((i + 0) :: S) ?_
      have := entryInv_pairs_hit bk none i (section_pairs tb.inputs) files loc
        prod S hnd h (by simpa [in_locs, section_locs] using hin)
      simpa [get_or_make_files] using this
    | succ b2 =>
      rw [run_pass2_cons_fst]
      have hb2 : rest.get? b2 = some tb := by
        rwa [List.get?_cons_succ] at hb
      have := ih (i + 1) b2 tb
        (get_or_make_files bk t.inputs none (some i) files).1
        (by rw [get_or_make_files]
            exact nodup_locs_pairs bk none (some i) _ files hnd)
        (by rw [get_or_make_files]
            exact entryInv_pairs bk none (some i) _ files loc prod S h)
        hb2 hin
      have harith : i + 1 + b2 = i + (b2 + 1) := by omega
      rwa [harith] at this

/-- With duplicate-free filenames, two arena members sharing a filename
are the same entry. -/
theorem eq_of_mem_of_filename_eq (files : List GSFile)
    (hnd : (locs files).Nodup) {g g2 : GSFile} (hg : g ∈ files)
    (hg2 : g2 ∈ files) (he : g.filename = g2.filename) : g = g2 :=
  List.inj_on_of_nodup_map (by simpa [locs] using hnd) hg hg2 he

/-- C1: after `Analysis.make_tasks` builds the provenance graph,
exactly one `GSFile` exists per distinct file location: the file list's
locations are duplicate-free, a location appears in the file list
exactly when it is referenced in some task's input or output descriptor
tree, and hence the number of artifacts equals the number of distinct
referenced locations. -/
theorem c1_one_artifact_per_location (bk : Backend) (ts : List TaskData) :
    (locs (make_tasks bk ts).2).Nodup ∧
    (∀ l : Loc, l ∈ locs (make_tasks bk ts).2 ↔ l ∈ referenced_locs ts) ∧
    (make_tasks bk ts).2.length = (referenced_locs ts).dedup.length := by
  have hfiles : (make_tasks bk ts).2 =
      (run_pass2 bk 0 ts (run_pass1 bk 0 ts []).1).1 := rfl
  have hnd : (locs (make_tasks bk ts).2).Nodup := by
    rw [hfiles]
    exact nodup_locs_pass2 bk 0 ts _ (nodup_locs_pass1 bk 0 ts [] (by simp))
  have hmem : ∀ l : Loc, l ∈ locs (make_tasks bk ts).2 ↔
      l ∈ referenced_locs ts := by
    intro l
    rw [hfiles, mem_locs_pass2, mem_locs_pass1]
    simp only [locs_nil, List.not_mem_nil, false_or]
    rw [referenced_locs, List.mem_flatMap]
    constructor
    · rintro (⟨t, ht, h⟩ | ⟨t, ht, h⟩)
      · exact ⟨t, ht, List.mem_append_left _ h⟩
      · exact ⟨t, ht, List.mem_append_right _ h⟩
    · rintro ⟨t, ht, h⟩
      rcases List.mem_append.mp h with h | h
      · exact Or.inl ⟨t, ht, h⟩
      · exact Or.inr ⟨t, ht, h⟩
  refine ⟨hnd, hmem, ?_⟩
  have hperm : List.Perm (locs (make_tasks bk ts).2) (referenced_locs ts).dedup := by
    rw [List.perm_ext_iff_of_nodup hnd (List.nodup_dedup _)]
    intro l
    rw [hmem l, List.mem_dedup]
  have hlen : (locs (make_tasks bk ts).2).length = (make_tasks bk ts).2.length :=
    List.length_map _ _
  rw [← hlen, hperm.length_eq]

/-- C2: if location `loc` appears in the output descriptor tree of task
`a` (and of no other task) and in the input descriptor tree of task
`b`, the built graph has a single artifact for `loc`, produced by task
`a` with task `b` among its consumers — because `make_tasks` builds all
output artifacts before any input artifacts. -/
theorem c2_shared_artifact_producer_consumer (bk : Backend)
    (ts : List TaskData) (a b : Nat) (loc : Loc) (ta tb : TaskData)
    (ha : ts.get? a = some ta) (hb : ts.get? b = some tb)
    (hout : loc ∈ out_locs ta) (hin : loc ∈ in_locs tb)
    (huniq : ∀ (k : Nat) (tk : TaskData), ts.get? k = some tk →
      loc ∈ out_locs tk → k = a) :
    ∃ g ∈ (make_tasks bk ts).2, g.filename = loc ∧ g.task = some a ∧
      b ∈ g.used_by_tasks ∧
      ∀ g2 ∈ (make_tasks bk ts).2, g2.filename = loc → g2 = g := by
  have hfiles : (make_tasks bk ts).2 =
      (run_pass2 bk 0 ts (run_pass1 bk 0 ts []).1).1 := rfl
  have hnd1 : (locs (run_pass1 bk 0 ts []).1).Nodup :=
    nodup_locs_pass1 bk 0 ts [] (by simp)
  have hinv1 : EntryInv loc (some a) [] (run_pass1 bk 0 ts []).1 := by
    have := pass1_producer bk ts loc 0 a ta [] (by simp) ha hout huniq
    simpa using this
  have hinv2 : EntryInv loc (some a) [b] (make_tasks bk ts).2 := by
    rw [hfiles]
    have := pass2_consumer bk ts loc (some a) [] 0 b tb _ hnd1 hinv1 hb hin
    simpa using this
  have hnd2 : (locs (make_tasks bk ts).2).Nodup := by
    rw [hfiles]
    exact nodup_locs_pass2 bk 0 ts _ hnd1
  rcases hinv2 with ⟨g, hg, hname, htask, hused⟩
  refine ⟨g, hg, hname, htask, hused b (by simp), ?_⟩
  intro g2 hg2 hname2
  exact eq_of_mem_of_filename_eq _ hnd2 hg2 hg (by rw [hname, hname2])


/-! ### Lemmas about the lineage search (claims C8, C9) -/

theorem optConcat_eq_some_mem {α : Type} (ls : List (Option (List α)))
    (r : List α) (h : optConcat ls = some r) (x : α) (hx : x ∈ r) :
    ∃ l ∈ ls, ∃ rl, l = some rl ∧ x ∈ rl := by
  induction ls generalizing r with
  | nil =>
    simp only [optConcat] at h
    cases h
    simp at hx
  | cons o os ih =>
    simp only [optConcat] at h
    rcases Option.bind_eq_some.mp h with ⟨l1, ho, hmap⟩
    rcases Option.map_eq_some'.mp hmap with ⟨r2, hrec, happ⟩
    subst happ
    rcases List.mem_append.mp hx with h1 | h2
    · exact ⟨o, List.mem_cons_self _ _, l1, ho, h1⟩
    · rcases ih r2 hrec h2 with ⟨l, hl, rl, hrl, hxrl⟩
      exact ⟨l, List.mem_cons_of_mem _ hl, rl, hrl, hxrl⟩

theorem optConcat_none_of_mem {α : Type} (ls : List (Option (List α)))
    (h : (none : Option (List α)) ∈ ls) : optConcat ls = none := by
  induction ls with
  | nil => simp at h
  | cons o os ih =>
    rcases List.mem_cons.mp h with h1 | h2
    · rw [optConcat, ← h1]
      rfl
    · rw [optConcat, ih h2]
      cases o <;> rfl

theorem search_up_filekey_mem (A : AnalysisG) (name key : String)
    (inp : Bool) :
    ∀ (fuel : Nat) (t : BuiltTask) (f : GSFile),
      f ∈ search_up A fuel t name key inp → key ∈ f.filekeys := by
  intro fuel
  induction fuel with
  | zero => intro t f hf; simp [search_up] at hf
  | succ n ih =>
    intro t f hf
    rw [search_up] at hf
    rcases List.mem_append.mp hf with hy | hr
    · by_cases hn : t.task_name = name
      · rw [if_pos hn] at hy
        exact of_decide_eq_true (List.mem_filter.mp hy).2
      · rw [if_neg hn] at hy
        simp at hy
    · rcases List.mem_flatMap.mp hr with ⟨p, _, hfp⟩
      cases hpt : p.bind A.tasks.get? with
      | none => rw [hpt] at hfp; simp at hfp
      | some t2 =>
        rw [hpt] at hfp
        simp only [Option.map_some', Option.getD_some] at hfp
        exact ih t2 f hfp

theorem search_down_filekey_mem (A : AnalysisG) (name key : String) :
    ∀ (fuel : Nat) (t : BuiltTask) (l : List GSFile) (f : GSFile),
      search_down A fuel t name key = some l → f ∈ l → key ∈ f.filekeys := by
  intro fuel
  induction fuel with
  | zero =>
    intro t l f h hf
    simp only [search_down] at h
    cases h
    simp at hf
  | succ n ih =>
    intro t l f h hf
    rw [search_down] at h
    by_cases he : t.output_files.isEmpty
    · rw [if_pos he] at h; cases h
    · rw [if_neg he] at h
      rcases Option.map_eq_some'.mp h with ⟨rest, hco, hl⟩
      subst hl
      rcases List.mem_append.mp hf with hy | hr
      · by_cases hn : t.task_name = name
        · rw [if_pos hn] at hy
          exact of_decide_eq_true (List.mem_filter.mp hy).2
        · rw [if_neg hn] at hy
          simp at hy
      · rcases optConcat_eq_some_mem _ _ hco f hr with ⟨o, ho, rl, hrl, hfrl⟩
        rcases List.mem_map.mp ho with ⟨ti, _, hmap⟩
        cases hti : A.tasks.get? ti with
        | none =>
          rw [hti] at hmap
          simp only [Option.map_none', Option.getD_none] at hmap
          rw [← hmap] at hrl
          cases hrl
          simp at hfrl
        | some t2 =>
          rw [hti] at hmap
          simp only [Option.map_some', Option.getD_some] at hmap
          rw [← hmap] at hrl
          exact ih t2 rl f hrl hfrl

theorem search_up_unfold_cases (A : AnalysisG) (fuel : Nat) (t : BuiltTask)
    (name key : String) (inp : Bool) (f : GSFile)
    (hf : f ∈ search_up A (fuel + 1) t name key inp) :
    (t.task_name = name ∧
      f ∈ (if inp then resolveFiles A t.input_files
           else resolveFiles A t.output_files) ∧
      key ∈ f.filekeys) ∨
    (∃ ti t2, some ti ∈ (resolveFiles A t.input_files).map (·.task) ∧
      A.tasks.get? ti = some t2 ∧ f ∈ search_up A fuel t2 name key inp) := by
  rw [search_up] at hf
  rcases List.mem_append.mp hf with hy | hr
  · by_cases hn : t.task_name = name
    · rw [if_pos hn] at hy
      have h2 := List.mem_filter.mp hy
      exact Or.inl ⟨hn, h2.1, of_decide_eq_true h2.2⟩
    · rw [if_neg hn] at hy
      simp at hy
  · right
    rcases List.mem_flatMap.mp hr with ⟨p, hp, hfp⟩
    cases hpt : p.bind A.tasks.get? with
    | none => rw [hpt] at hfp; simp at hfp
    | some t2 =>
      rw [hpt] at hfp
      simp only [Option.map_some', Option.getD_some] at hfp
      rcases Option.bind_eq_some.mp hpt with ⟨ti, hpti, hti⟩
      subst hpti
      exact ⟨ti, t2, List.mem_dedup.mp hp, hti, hfp⟩

theorem search_up_yields_match (A : AnalysisG) (fuel : Nat) (t : BuiltTask)
    (name key : String) (inp : Bool) (f : GSFile)
    (hn : t.task_name = name)
    (hf : f ∈ (if inp then resolveFiles A t.input_files
               else resolveFiles A t.output_files))
    (hk : key ∈ f.filekeys) :
    f ∈ search_up A (fuel + 1) t name key inp := by
  rw [search_up]
  apply List.mem_append_left
  rw [if_pos hn]
  exact List.mem_filter.mpr ⟨hf, decide_eq_true hk⟩

theorem search_down_empty_outputs (A : AnalysisG) (fuel : Nat)
    (t : BuiltTask) (name key : String) (he : t.output_files = []) :
    search_down A (fuel + 1) t name key = none := by
  rw [search_down, if_pos (by rw [he]; rfl)]

theorem search_down_propagates_none (A : AnalysisG) (fuel : Nat)
    (t : BuiltTask) (name key : String) (ti : Nat) (t2 : BuiltTask)
    (hti : ti ∈ ((resolveFiles A t.output_files).flatMap
      (·.used_by_tasks)).dedup)
    (ht2 : A.tasks.get? ti = some t2)
    (hrec : search_down A fuel t2 name key = none) :
    search_down A (fuel + 1) t name key = none := by
  rw [search_down]
  by_cases he : t.output_files.isEmpty
  · rw [if_pos he]
  · rw [if_neg he]
    have hnone : ((A.tasks.get? ti).map
        (fun t3 => search_down A fuel t3 name key)).getD (some []) =
        (none : Option (List GSFile)) := by
      rw [ht2]
      simpa using hrec
    have hmem : (none : Option (List GSFile)) ∈
        ((((resolveFiles A t.output_files).flatMap
          (·.used_by_tasks)).dedup).map (fun ti2 =>
            ((A.tasks.get? ti2).map
              (fun t3 => search_down A fuel t3 name key)).getD (some []))) := by
      rw [← hnone]
      exact List.mem_map_of_mem _ hti
    rw [optConcat_none_of_mem _ hmem]
    rfl

/-! ### Lemmas about records and `accession_file` (claims C4, C5, C7) -/

theorem dget_cons_same (k : String) (v : EVal) (d : EDict) :
    dget ((k, v) :: d) k = some v := by
  simp [dget]

theorem dget_cons_ne (k k2 : String) (v : EVal) (d : EDict) (h : k ≠ k2) :
    dget ((k, v) :: d) k2 = dget d k2 := by
  simp [dget, List.find?_cons, h]

theorem dget_append_or (d1 d2 : EDict) (k : String) :
    dget (d1 ++ d2) k = (dget d1 k).or (dget d2 k) := by
  rw [dget, List.find?_append]
  cases h : d1.find? (fun kv => kv.1 == k) with
  | none => simp [dget, h]
  | some kv => simp [dget, h]

theorem conn_patch_found (st : AccState) (acc : Option EVal) (props : EDict)
    (r : EDict)
    (hfind : st.portal.find? (fun q => dget q "accession" == acc) = some r) :
    conn_patch st acc props = .ok (dupdate r props,
      { st with
          portal := st.portal.map
            (fun q => if dget q "accession" == acc then dupdate q props else q)
          patches := st.patches + 1 }) := by
  unfold conn_patch
  rw [hfind]

theorem conn_post_ok (env : Env) (st : AccState) (payload : EDict)
    (hpost : env.conn.post_error payload = none) :
    conn_post env st payload = .ok
      (dupdate payload
        [("accession", .str (freshAcc st.nextId)),
         ("@id", .str ("/records/" ++ freshAcc st.nextId ++ "/"))],
       { st with
           portal := st.portal ++ [dupdate payload
             [("accession", .str (freshAcc st.nextId)),
              ("@id", .str ("/records/" ++ freshAcc st.nextId ++ "/"))]]
           nextId := st.nextId + 1
           posts := st.posts + 1 }) := by
  unfold conn_post
  rw [hpost]

theorem accession_file_eq_none (env : Env) (st : AccState) (ef : EDict)
    (gs : GSFile)
    (hnone : file_at_portal st env.backend gs.filename = none) :
    accession_file env st ef gs =
      match conn_post env { st with downloads := st.downloads + 1 }
          (dset ef "submitted_file_name"
            (.str (env.backend.download_path gs.filename))) with
      | .error e => .error e
      | .ok (posted, st2) =>
        match conn_patch st2 (dget posted "accession")
            [("submitted_file_name", .str gs.filename)] with
        | .error e => .error e
        | .ok (patched, st3) =>
          .ok (patched, { st3 with new_files := st3.new_files ++ [patched] }) := by
  unfold accession_file
  rw [hnone]

theorem accession_file_eq_some (env : Env) (st : AccState) (ef : EDict)
    (gs : GSFile) (fe : EDict)
    (hsome : file_at_portal st env.backend gs.filename = some fe) :
    accession_file env st ef gs =
      if dget fe "status" = some (.str "deleted") ∨
         dget fe "status" = some (.str "revoked") then
        match conn_patch st (dget fe "accession")
            (dupdate (dupdate ef
                [("submitted_file_name", .str gs.filename)])
              [("submitted_by", .str env.current_user)]) with
        | .error e => .error e
        | .ok (patched, st1) =>
          .ok (patched, { st1 with new_files := st1.new_files ++ [patched] })
      else .ok (fe, st) := by
  unfold accession_file
  rw [hsome]

/-- A record handed back by `file_at_portal` is the first portal record
with its accession, so a patch addressed at it lands on it. -/
theorem file_at_portal_find_back (st : AccState) (bk : Backend) (fn : Loc)
    (fe : EDict) (h : file_at_portal st bk fn = some fe) :
    st.portal.find? (fun q => dget q "accession" == dget fe "accession") =
      some fe := by
  unfold file_at_portal at h
  cases hh : st.portal.find?
      (fun r => dget r "md5sum" == some (.str (bk.md5sum fn))) with
  | none => rw [hh] at h; cases h
  | some hit =>
    rw [hh] at h
    have hpred := List.find?_some h
    have hacc : dget fe "accession" = dget hit "accession" := by
      simpa using hpred
    rw [hacc]
    exact h

/-- `accession_file` on a file absent from the portal: one download,
one create, one follow-up update carrying the permanent submitted
location, one cache append, and the patched record returned. -/
theorem accession_file_create (env : Env) (st : AccState) (ef : EDict)
    (gs : GSFile)
    (hnone : file_at_portal st env.backend gs.filename = none)
    (hpost : env.conn.post_error (dset ef "submitted_file_name"
      (.str (env.backend.download_path gs.filename))) = none)
    (hfresh : ∀ r ∈ st.portal,
      dget r "accession" ≠ some (.str (freshAcc st.nextId))) :
    ∃ r st2, accession_file env st ef gs = .ok (r, st2) ∧
      st2.posts = st.posts + 1 ∧ st2.patches = st.patches + 1 ∧
      st2.downloads = st.downloads + 1 ∧
      st2.new_files = st.new_files ++ [r] ∧
      dget r "submitted_file_name" = some (.str gs.filename) ∧
      dget r "accession" = some (.str (freshAcc st.nextId)) := by
  have hcp := conn_post_ok env { st with downloads := st.downloads + 1 }
    (dset ef "submitted_file_name"
      (.str (env.backend.download_path gs.filename))) hpost
  set posted : EDict := dupdate (dset ef "submitted_file_name"
      (.str (env.backend.download_path gs.filename)))
    [("accession", .str (freshAcc st.nextId)),
     ("@id", .str ("/records/" ++ freshAcc st.nextId ++ "/"))] with hposted
  have hpacc : dget posted "accession" = some (.str (freshAcc st.nextId)) := by
    rw [hposted, dupdate, dget_append_or]
    rfl
  set stP : AccState :=
    { st with
        downloads := st.downloads + 1
        portal := st.portal ++ [posted]
        nextId := st.nextId + 1
        posts := st.posts + 1 } with hstP
  have hfindP : stP.portal.find?
      (fun q => dget q "accession" == dget posted "accession") = some posted := by
    show (st.portal ++ [posted]).find? _ = some posted
    rw [List.find?_append]
    have h1 : st.portal.find?
        (fun q => dget q "accession" == dget posted "accession") = none := by
      rw [List.find?_eq_none]
      intro q hq
      rw [hpacc]
      simpa using hfresh q hq
    rw [h1]
    simp
  have hcpatch := conn_patch_found stP (dget posted "accession")
    [("submitted_file_name", .str gs.filename)] posted hfindP
  refine ⟨dupdate posted [("submitted_file_name", .str gs.filename)],
    { portal := stP.portal.map
        (fun q => if dget q "accession" == dget posted "accession" then
          dupdate q [("submitted_file_name", .str gs.filename)] else q)
      new_files := st.new_files ++
        [dupdate posted [("submitted_file_name", .str gs.filename)]]
      nextId := st.nextId + 1
      posts := st.posts + 1
      patches := st.patches + 1
      downloads := st.downloads + 1 },
    ?_, rfl, rfl, rfl, rfl, ?_, ?_⟩
  · rw [accession_file_eq_none env st ef gs hnone]
    simp only [hcp, hcpatch]
  · rw [dupdate, dget_append_or]
    rfl
  · rw [dupdate, dget_append_or]
    rw [show dget [("submitted_file_name", EVal.str gs.filename)] "accession" =
      none from rfl, hpacc]
    rfl

/-- `accession_file` on an existing record with soft-deleted lifecycle
status: one in-place update with the candidate's fields and the current
submitting identity, one cache append, the patched record returned. -/
theorem accession_file_patch_deleted (env : Env) (st : AccState)
    (ef : EDict) (gs : GSFile) (fe : EDict)
    (hsome : file_at_portal st env.backend gs.filename = some fe)
    (hstat : dget fe "status" = some (.str "deleted") ∨
      dget fe "status" = some (.str "revoked"))
    (hefacc : dget ef "accession" = none) :
    ∃ r st2, accession_file env st ef gs = .ok (r, st2) ∧
      st2.posts = st.posts ∧ st2.patches = st.patches + 1 ∧
      st2.downloads = st.downloads ∧
      st2.new_files = st.new_files ++ [r] ∧
      r = dupdate fe (dupdate (dupdate ef
          [("submitted_file_name", .str gs.filename)])
        [("submitted_by", .str env.current_user)]) ∧
      dget r "submitted_by" = some (.str env.current_user) ∧
      dget r "submitted_file_name" = some (.str gs.filename) ∧
      dget r "accession" = dget fe "accession" := by
  have hfind := file_at_portal_find_back st env.backend gs.filename fe hsome
  have hcpatch := conn_patch_found st (dget fe "accession")
    (dupdate (dupdate ef [("submitted_file_name", .str gs.filename)])
      [("submitted_by", .str env.current_user)]) fe hfind
  refine ⟨dupdate fe (dupdate (dupdate ef
      [("submitted_file_name", .str gs.filename)])
      [("submitted_by", .str env.current_user)]),
    { portal := st.portal.map
        (fun q => if dget q "accession" == dget fe "accession" then
          dupdate q (dupdate (dupdate ef
              [("submitted_file_name", .str gs.filename)])
            [("submitted_by", .str env.current_user)]) else q)
      new_files := st.new_files ++ [dupdate fe (dupdate (dupdate ef
          [("submitted_file_name", .str gs.filename)])
        [("submitted_by", .str env.current_user)])]
      nextId := st.nextId
      posts := st.posts
      patches := st.patches + 1
      downloads := st.downloads },
    ?_, rfl, rfl, rfl, rfl, rfl, ?_, ?_, ?_⟩
  · rw [accession_file_eq_some env st ef gs fe hsome, if_pos hstat]
    simp only [hcpatch]
  · rfl
  · rw [dupdate, dget_append_or]
    rw [show dget (dupdate (dupdate ef
        [("submitted_file_name", EVal.str gs.filename)])
      [("submitted_by", EVal.str env.current_user)]) "submitted_file_name" =
        some (.str gs.filename) from ?_]
    · rfl
    · rw [dupdate, dget_append_or]
      rw [show dget [("submitted_by", EVal.str env.current_user)]
        "submitted_file_name" = none from rfl]
      rw [dupdate, dget_append_or]
      rfl
  · rw [dupdate, dget_append_or]
    rw [show dget (dupdate (dupdate ef
        [("submitted_file_name", EVal.str gs.filename)])
      [("submitted_by", EVal.str env.current_user)]) "accession" = none from ?_]
    · rfl
    · rw [dupdate, dget_append_or]
      rw [show dget [("submitted_by", EVal.str env.current_user)]
        "accession" = none from rfl]
      rw [dupdate, dget_append_or]
      rw [show dget [("submitted_file_name", EVal.str gs.filename)]
        "accession" = none from rfl, hefacc]
      rfl

/-- `accession_file` on an existing live record: an explicit no-op, no
portal mutation, no cache append, and the existing record returned. -/
theorem accession_file_noop (env : Env) (st : AccState) (ef : EDict)
    (gs : GSFile) (fe : EDict)
    (hsome : file_at_portal st env.backend gs.filename = some fe)
    (hstat : ¬(dget fe "status" = some (.str "deleted") ∨
      dget fe "status" = some (.str "revoked"))) :
    accession_file env st ef gs = .ok (fe, st) := by
  rw [accession_file_eq_some env st ef gs fe hsome, if_neg hstat]

/-- C8: every artifact yielded by `search_up` (with or without
`via_inputs`) and by `search_down` carries the requested role-key;
`search_up` yields precisely the matching task's role-keyed output
files (input files under `via_inputs`), and any other yield comes from
recursing into a producing task of one of the current task's input
files — raw inputs, whose producer is `none`, stop the recursion. -/
theorem c8_search_yields_respect_filekey :
    (∀ (A : AnalysisG) (fuel : Nat) (t : BuiltTask) (name key : String)
       (inp : Bool) (f : GSFile),
       f ∈ search_up A fuel t name key inp → key ∈ f.filekeys) ∧
    (∀ (A : AnalysisG) (fuel : Nat) (t : BuiltTask) (name key : String)
       (l : List GSFile) (f : GSFile),
       search_down A fuel t name key = some l → f ∈ l → key ∈ f.filekeys) ∧
    (∀ (A : AnalysisG) (fuel : Nat) (t : BuiltTask) (name key : String)
       (inp : Bool) (f : GSFile),
       f ∈ search_up A (fuel + 1) t name key inp →
       (t.task_name = name ∧
         f ∈ (if inp then resolveFiles A t.input_files
              else resolveFiles A t.output_files) ∧
         key ∈ f.filekeys) ∨
       (∃ ti t2, some ti ∈ (resolveFiles A t.input_files).map (·.task) ∧
         A.tasks.get? ti = some t2 ∧ f ∈ search_up A fuel t2 name key inp)) ∧
    (∀ (A : AnalysisG) (fuel : Nat) (t : BuiltTask) (name key : String)
       (inp : Bool) (f : GSFile),
       t.task_name = name →
       f ∈ (if inp then resolveFiles A t.input_files
            else resolveFiles A t.output_files) →
       key ∈ f.filekeys →
       f ∈ search_up A (fuel + 1) t name key inp) :=
  ⟨fun A fuel t name key inp f h =>
      search_up_filekey_mem A name key inp fuel t f h,
   fun A fuel t name key l f h hf =>
      search_down_filekey_mem A name key fuel t l f h hf,
   fun A fuel t name key inp f h =>
      search_up_unfold_cases A fuel t name key inp f h,
   fun A fuel t name key inp f h1 h2 h3 =>
      search_up_yields_match A fuel t name key inp f h1 h2 h3⟩

/-- C8 witness: in the concrete two-task run, the upward search from
`dedup` for `align`'s `bam` yields the `x.bam` artifact, which indeed
carries the `bam` role-key. -/
theorem c8_witness :
    "bam" ∈ fxW.filekeys ∧ fxW ∈ search_up AW 2 tdBuiltW "align" "bam" false :=
  ⟨c8_search_yields_respect_filekey.1 AW 2 tdBuiltW "align" "bam" false fxW
    (by decide),
   by decide⟩

/-- C9: whenever `search_down` is invoked on a task whose
`output_files` list is empty, the whole search fails (Python's `reduce`
over an empty sequence raises `TypeError`); and a failure in any
recursive sub-search poisons the entire result, so a downward search
that reaches a task with no recorded outputs crashes instead of
returning the artifacts gathered so far. -/
theorem c9_search_down_empty_outputs_crashes :
    (∀ (A : AnalysisG) (fuel : Nat) (t : BuiltTask) (name key : String),
       t.output_files = [] → search_down A (fuel + 1) t name key = none) ∧
    (∀ (A : AnalysisG) (fuel : Nat) (t : BuiltTask) (name key : String)
       (ti : Nat) (t2 : BuiltTask),
       ti ∈ ((resolveFiles A t.output_files).flatMap
         (·.used_by_tasks)).dedup →
       A.tasks.get? ti = some t2 →
       search_down A fuel t2 name key = none →
       search_down A (fuel + 1) t name key = none) :=
  ⟨fun A fuel t name key h => search_down_empty_outputs A fuel t name key h,
   fun A fuel t name key ti t2 h1 h2 h3 =>
     search_down_propagates_none A fuel t name key ti t2 h1 h2 h3⟩

/-- C9 witness: in `A9W` the `align` task's only output feeds the `qc`
task, which recorded no outputs; the one-level search crashes, and so
does the search from `align` that reaches it. -/
theorem c9_witness :
    search_down A9W 1
      ⟨"qc", [("bam", .jstr "gs://b/x.bam")], [], [0], [], some "img:v1"⟩
      "zzz" "kkk" = none ∧
    search_down A9W 2
      ⟨"align", [], [("bam", .jstr "gs://b/x.bam")], [], [0], some "img:v1"⟩
      "zzz" "kkk" = none :=
  ⟨c9_search_down_empty_outputs_crashes.1 A9W 0
      ⟨"qc", [("bam", .jstr "gs://b/x.bam")], [], [0], [], some "img:v1"⟩
      "zzz" "kkk" rfl,
   c9_search_down_empty_outputs_crashes.2 A9W 1
      ⟨"align", [], [("bam", .jstr "gs://b/x.bam")], [], [0], some "img:v1"⟩
      "zzz" "kkk" 1
      ⟨"qc", [("bam", .jstr "gs://b/x.bam")], [], [0], [], some "img:v1"⟩
      (by decide) rfl
      (c9_search_down_empty_outputs_crashes.1 A9W 0
        ⟨"qc", [("bam", .jstr "gs://b/x.bam")], [], [0], [], some "img:v1"⟩
        "zzz" "kkk" rfl)⟩

/-- C4: `accession_file` is a three-way case split on the portal lookup
by content hash.  No record: download locally, create, follow-up update
carrying the submitted location, cache, return.  Record with status
`deleted`/`revoked`: update it in place with the candidate's fields and
the current submitting identity, cache, return.  Otherwise: return the
existing record with no create or update call and no state change. -/
theorem c4_accession_file_three_cases :
    (∀ (env : Env) (st : AccState) (ef : EDict) (gs : GSFile),
      file_at_portal st env.backend gs.filename = none →
      env.conn.post_error (dset ef "submitted_file_name"
        (.str (env.backend.download_path gs.filename))) = none →
      (∀ r ∈ st.portal,
        dget r "accession" ≠ some (.str (freshAcc st.nextId))) →
      ∃ r st2, accession_file env st ef gs = .ok (r, st2) ∧
        st2.posts = st.posts + 1 ∧ st2.patches = st.patches + 1 ∧
        st2.downloads = st.downloads + 1 ∧
        st2.new_files = st.new_files ++ [r] ∧
        dget r "submitted_file_name" = some (.str gs.filename) ∧
        dget r "accession" = some (.str (freshAcc st.nextId))) ∧
    (∀ (env : Env) (st : AccState) (ef : EDict) (gs : GSFile) (fe : EDict),
      file_at_portal st env.backend gs.filename = some fe →
      (dget fe "status" = some (.str "deleted") ∨
        dget fe "status" = some (.str "revoked")) →
      dget ef "accession" = none →
      ∃ r st2, accession_file env st ef gs = .ok (r, st2) ∧
        st2.posts = st.posts ∧ st2.patches = st.patches + 1 ∧
        st2.downloads = st.downloads ∧
        st2.new_files = st.new_files ++ [r] ∧
        r = dupdate fe (dupdate (dupdate ef
            [("submitted_file_name", .str gs.filename)])
          [("submitted_by", .str env.current_user)]) ∧
        dget r "submitted_by" = some (.str env.current_user) ∧
        dget r "submitted_file_name" = some (.str gs.filename) ∧
        dget r "accession" = dget fe "accession") ∧
    (∀ (env : Env) (st : AccState) (ef : EDict) (gs : GSFile) (fe : EDict),
      file_at_portal st env.backend gs.filename = some fe →
      ¬(dget fe "status" = some (.str "deleted") ∨
        dget fe "status" = some (.str "revoked")) →
      accession_file env st ef gs = .ok (fe, st)) :=
  ⟨fun env st ef gs h1 h2 h3 => accession_file_create env st ef gs h1 h2 h3,
   fun env st ef gs fe h1 h2 h3 =>
     accession_file_patch_deleted env st ef gs fe h1 h2 h3,
   fun env st ef gs fe h1 h2 => accession_file_noop env st ef gs fe h1 h2⟩

/-- C4 witness: the deleted-record branch at a concrete input: the one
record on the portal is `deleted`, so `accession_file` patches it in
place with the candidate's fields and the current user and caches the
result. -/
theorem c4_witness :
    ∃ r st2, accession_file envC stDelC
        [("md5sum", .str "m")] gsC = .ok (r, st2) ∧
      st2.posts = stDelC.posts ∧ st2.patches = stDelC.patches + 1 ∧
      st2.downloads = stDelC.downloads ∧
      st2.new_files = stDelC.new_files ++ [r] ∧
      r = dupdate rDelC (dupdate (dupdate [("md5sum", EVal.str "m")]
          [("submitted_file_name", .str gsC.filename)])
        [("submitted_by", .str envC.current_user)]) ∧
      dget r "submitted_by" = some (.str envC.current_user) ∧
      dget r "submitted_file_name" = some (.str gsC.filename) ∧
      dget r "accession" = dget rDelC "accession" :=
  c4_accession_file_three_cases.2.1 envC stDelC
    [("md5sum", .str "m")] gsC rDelC rfl (Or.inl rfl) rfl

/-- C5 counterexample: with the live record `rLiveC` already on the
portal, `accession_file` is a pure read that returns the existing
record and leaves the run state untouched; applied twice, the state
after both invocations is still `stLiveC`, so the total number of
create/update calls across the two invocations is `0 + 0 = 0`, not
exactly one as the claim states. -/
theorem c5_counterexample :
    accession_file envC stLiveC [] gsC = .ok (rLiveC, stLiveC) ∧
    stLiveC.posts = 0 ∧ stLiveC.patches = 0 ∧ (0 : Nat) + 0 ≠ 1 :=
  ⟨rfl, rfl, rfl, by decide⟩

/-- C5 amended: invoking `accession_file` twice with an identical
candidate and artifact against a catalog that already contains a live
(not deleted/revoked) record with the artifact's content hash performs
no create or update call at all: both invocations perform only read
operations and return the existing record, so re-running against the
same outputs never double-submits. -/
theorem c5_amended_reruns_read_only (env : Env) (st : AccState)
    (ef : EDict) (gs : GSFile) (fe : EDict)
    (hsome : file_at_portal st env.backend gs.filename = some fe)
    (hstat : ¬(dget fe "status" = some (.str "deleted") ∨
      dget fe "status" = some (.str "revoked"))) :
    accession_file env st ef gs = .ok (fe, st) ∧
    ∀ r1 st1, accession_file env st ef gs = .ok (r1, st1) →
      r1 = fe ∧ st1 = st ∧ st1.posts = st.posts ∧ st1.patches = st.patches ∧
      accession_file env st1 ef gs = .ok (fe, st1) := by
  have h := accession_file_noop env st ef gs fe hsome hstat
  refine ⟨h, ?_⟩
  intro r1 st1 h1
  rw [h] at h1
  have h2 : (fe, st) = (r1, st1) := by
    injection h1
  have hr : r1 = fe := (congrArg Prod.fst h2).symm
  have hs : st1 = st := (congrArg Prod.snd h2).symm
  subst hr
  subst hs
  exact ⟨rfl, rfl, rfl, rfl, h⟩

/-- C5 witness: both invocations at the concrete live-record state are
reads returning `rLiveC`. -/
theorem c5_witness :
    accession_file envC stLiveC [] gsC = .ok (rLiveC, stLiveC) ∧
    accession_file envC stLiveC [] gsC = .ok (rLiveC, stLiveC) ∧
    stLiveC.posts = stLiveC.posts ∧ stLiveC.patches = stLiveC.patches := by
  have h := c5_amended_reruns_read_only envC stLiveC [] gsC rLiveC rfl
    (by decide)
  rcases h.2 rLiveC stLiveC h.1 with ⟨_, _, h3, h4, h5⟩
  exact ⟨h.1, h5, h3, h4⟩

/-- C3 counterexample: on the concrete run, `x.bam` is the single
resolved ancestor of `y.bam`, and it matches two records — `A1` on the
portal and `A2` in the in-run cache, which share its content hash.  The
matches are nonzero and not fewer than the resolved ancestors (2 > 1),
so the claim predicts a successful return, but `get_derived_from`
raises the `MissingSomeDerivedFrom` error. -/
theorem c3_counterexample :
    get_derived_from envW stDupW 3 fyW "align" "bam" none false =
      .error missingSomeMsg ∧
    (derived_from_files_of AW 3 tdBuiltW "align" "bam" false).length = 1 ∧
    (matched_ids (derived_from_files_of AW 3 tdBuiltW "align" "bam" false)
      (accessioned_files_of envW stDupW
        (derived_from_files_of AW 3 tdBuiltW "align" "bam" false))
      none).length = 2 :=
  ⟨rfl, rfl, rfl⟩

/-- C3 amended: for every `get_derived_from` call (on a file with a
producing task), with `dff` the resolved ancestor artifacts and `ids`
the deduplicated matched identifiers: zero matches fail with the
`MissingAllDerivedFrom` error; a nonzero match count *different from*
(not merely fewer than) the resolved-ancestor count fails with the
`MissingSomeDerivedFrom` error; otherwise each matched identifier's
record reference `/files/<id>/` is returned, the identifiers
deduplicated. -/
theorem c3_amended_derivation_resolution (env : Env) (st : AccState)
    (fuel : Nat) (file : GSFile) (task_name filekey : String)
    (ot : Option String) (inp : Bool) (ti : Nat) (t : BuiltTask)
    (dff : List GSFile) (ids : List (Option EVal))
    (hti : file.task = some ti)
    (ht : env.analysis.tasks.get? ti = some t)
    (hdff : dff = derived_from_files_of env.analysis fuel t task_name filekey inp)
    (hids : ids = matched_ids dff (accessioned_files_of env st dff) ot) :
    (ids = [] →
      get_derived_from env st fuel file task_name filekey ot inp =
        .error missingAllMsg) ∧
    (ids ≠ [] → ids.length ≠ dff.length →
      get_derived_from env st fuel file task_name filekey ot inp =
        .error missingSomeMsg) ∧
    (ids ≠ [] → ids.length = dff.length →
      get_derived_from env st fuel file task_name filekey ot inp =
        .ok (ids.map (fun a => "/files/" ++ pyStr a ++ "/")) ∧
      ids.Nodup) := by
  subst hdff
  subst hids
  refine ⟨?_, ?_, ?_⟩
  · intro h
    simp only [get_derived_from, hti, ht]
    rw [if_pos (by rw [h]; rfl)]
  · intro h1 h2
    have hne : (matched_ids
        (derived_from_files_of env.analysis fuel t task_name filekey inp)
        (accessioned_files_of env st
          (derived_from_files_of env.analysis fuel t task_name filekey inp))
        ot).isEmpty = false := by
      cases hc : matched_ids
          (derived_from_files_of env.analysis fuel t task_name filekey inp)
          (accessioned_files_of env st
            (derived_from_files_of env.analysis fuel t task_name filekey inp))
          ot with
      | nil => exact absurd hc h1
      | cons a l => rfl
    simp only [get_derived_from, hti, ht]
    rw [if_neg (by simp [hne]), if_pos h2]
  · intro h1 h2
    have hne : (matched_ids
        (derived_from_files_of env.analysis fuel t task_name filekey inp)
        (accessioned_files_of env st
          (derived_from_files_of env.analysis fuel t task_name filekey inp))
        ot).isEmpty = false := by
      cases hc : matched_ids
          (derived_from_files_of env.analysis fuel t task_name filekey inp)
          (accessioned_files_of env st
            (derived_from_files_of env.analysis fuel t task_name filekey inp))
          ot with
      | nil => exact absurd hc h1
      | cons a l => rfl
    constructor
    · simp only [get_derived_from, hti, ht]
      rw [if_neg (by simp [hne]), if_neg (by simp [h2])]
    · simp only [matched_ids]
      exact List.nodup_dedup _

/-- C3 witness: on the concrete run with only `A1` on the portal, the
single ancestor fully resolves and the call returns its reference
exactly once. -/
theorem c3_witness :
    get_derived_from envW stOkW 3 fyW "align" "bam" none false =
      .ok ["/files/A1/"] := by
  have h := (c3_amended_derivation_resolution envW stOkW 3 fyW "align" "bam"
    none false 1 tdBuiltW
    (derived_from_files_of AW 3 tdBuiltW "align" "bam" false)
    (matched_ids (derived_from_files_of AW 3 tdBuiltW "align" "bam" false)
      (accessioned_files_of envW stOkW
        (derived_from_files_of AW 3 tdBuiltW "align" "bam" false)) none)
    rfl rfl rfl rfl).2.2 (by decide) (by decide)
  exact h.1.trans (by rfl)

/-- C10: `get_derived_from` compares the deduplicated match count to
the resolved-ancestor count with exact inequality, so even when every
resolved ancestor has a matching record on the portal or in the in-run
cache, any count mismatch — ancestors sharing one hash, or one ancestor
matching several records — raises the `MissingSomeDerivedFrom` error. -/
theorem c10_exact_count_comparison (env : Env) (st : AccState)
    (fuel : Nat) (file : GSFile) (task_name filekey : String)
    (ot : Option String) (inp : Bool) (ti : Nat) (t : BuiltTask)
    (dff : List GSFile) (ids : List (Option EVal))
    (hti : file.task = some ti)
    (ht : env.analysis.tasks.get? ti = some t)
    (hdff : dff = derived_from_files_of env.analysis fuel t task_name filekey inp)
    (hids : ids = matched_ids dff (accessioned_files_of env st dff) ot)
    (hresolve : ∀ gf ∈ dff, ∃ ef ∈ accessioned_files_of env st dff,
      (match_entry ot gf ef).isSome)
    (hlen : ids.length ≠ dff.length) :
    get_derived_from env st fuel file task_name filekey ot inp =
      .error missingSomeMsg := by
  subst hdff
  subst hids
  have hdffne : derived_from_files_of env.analysis fuel t task_name filekey inp ≠ [] := by
    intro h
    rw [h] at hlen
    simp [matched_ids] at hlen
  obtain ⟨gf, hgf⟩ := List.exists_mem_of_ne_nil _ hdffne
  obtain ⟨ef, hef, hsome⟩ := hresolve gf hgf
  obtain ⟨v, hv⟩ := Option.isSome_iff_exists.mp hsome
  have hvids : v ∈ matched_ids
      (derived_from_files_of env.analysis fuel t task_name filekey inp)
      (accessioned_files_of env st
        (derived_from_files_of env.analysis fuel t task_name filekey inp))
      ot := by
    simp only [matched_ids]
    exact List.mem_dedup.mpr (List.mem_flatMap.mpr
      ⟨gf, hgf, List.mem_filterMap.mpr ⟨ef, hef, hv⟩⟩)
  have hne : (matched_ids
      (derived_from_files_of env.analysis fuel t task_name filekey inp)
      (accessioned_files_of env st
        (derived_from_files_of env.analysis fuel t task_name filekey inp))
      ot).isEmpty = false := by
    cases hc : matched_ids
        (derived_from_files_of env.analysis fuel t task_name filekey inp)
        (accessioned_files_of env st
          (derived_from_files_of env.analysis fuel t task_name filekey inp))
        ot with
    | nil => rw [hc] at hvids; simp at hvids
    | cons a l => rfl
  simp only [get_derived_from, hti, ht]
  rw [if_neg (by simp [hne]), if_pos hlen]

/-- C10 witness: the single resolved ancestor `x.bam` matches two
records with its hash (`A1` on the portal, `A2` in the cache), the
counts differ (2 vs 1), and the call raises the
`MissingSomeDerivedFrom` error even though every ancestor is
matched. -/
theorem c10_witness :
    get_derived_from envW stDupW 3 fyW "align" "bam" none false =
      .error missingSomeMsg :=
  c10_exact_count_comparison envW stDupW 3 fyW "align" "bam" none false
    1 tdBuiltW
    (derived_from_files_of AW 3 tdBuiltW "align" "bam" false)
    (matched_ids (derived_from_files_of AW 3 tdBuiltW "align" "bam" false)
      (accessioned_files_of envW stDupW
        (derived_from_files_of AW 3 tdBuiltW "align" "bam" false)) none)
    rfl rfl rfl rfl (by decide) (by decide)

/-- C6: in `accession_step`'s per-file loop, a failed attempt is
recovered (skipped, loop continues) exactly when the exception message
contains `Conflict` and the file's spec sets `possible_duplicate`, or
when it contains the `MissingAllDerivedFrom` text; the
`MissingSomeDerivedFrom` message never skips, a conflict without the
flag skips only if it also carries the missing-all text, any other
failure propagates, and a propagated step failure aborts the remaining
run. -/
theorem c6_step_error_recovery :
    (∀ (env : Env) (fuel : Nat) (sr : EDict) (fp : FileParams) (f : GSFile)
       (rest : List (FileParams × GSFile)) (st : AccState)
       (acc : List EDict) (e : String),
      step_file_attempt env fuel sr fp f st = .error e →
      accession_step_items env fuel sr ((fp, f) :: rest) st acc =
        if shouldSkip e fp.possible_duplicate then
          accession_step_items env fuel sr rest st acc
        else .error e) ∧
    (∀ pd : Bool, shouldSkip missingAllMsg pd = true) ∧
    (∀ pd : Bool, shouldSkip missingSomeMsg pd = false) ∧
    (∀ e : String, containsSub "Conflict" e = true →
      shouldSkip e true = true) ∧
    (∀ e : String, shouldSkip e false =
      containsSub "Missing all of the derived_from" e) ∧
    (∀ e : String, containsSub "Conflict" e = false →
      containsSub "Missing all of the derived_from" e = false →
      ∀ pd : Bool, shouldSkip e pd = false) ∧
    (∀ (env : Env) (fuel : Nat) (st : AccState) (p : StepParams)
       (ps : List StepParams) (e : String),
      accession_step env fuel st p = .error e →
      accession_steps env fuel (p :: ps) st = .error e) := by
  refine ⟨?_, ?_, ?_, ?_, ?_, ?_, ?_⟩
  · intro env fuel sr fp f rest st acc e h
    simp only [accession_step_items, h]
  · intro pd
    cases pd <;> rfl
  · intro pd
    cases pd <;> rfl
  · intro e h
    simp [shouldSkip, h]
  · intro e
    simp [shouldSkip]
  · intro e h1 h2 pd
    simp [shouldSkip, h1, h2]
  · intro env fuel st p ps e h
    simp only [accession_steps, h]

/-- C6 witness: on the concrete run the attempt for `x.bam` fails with
an `AttributeError` (its raw fastqs are not accessioned, so computing
the dataset dereferences `None`); that message matches neither recovery
case, so the loop aborts with it. -/
theorem c6_witness :
    accession_step_items envW 3 [] [(fpW, fxW)] stOkW [] =
      .error "AttributeError" := by
  rw [c6_step_error_recovery.1 envW 3 [] fpW fxW [] stOkW [] "AttributeError"
    rfl]
  rfl

/-- C7: every record `accession_file` creates or patches is appended to
the in-run cache `new_files` before the call returns; any cached record
matching an ancestor artifact is visible to every later
`get_derived_from` in the run (its identifier lands in the matched
set); and `accession_steps` processes steps sequentially in declared
order, threading the state from each step into the next. -/
theorem c7_cache_populated_and_consulted :
    (∀ (env : Env) (st : AccState) (ef : EDict) (gs : GSFile),
      file_at_portal st env.backend gs.filename = none →
      env.conn.post_error (dset ef "submitted_file_name"
        (.str (env.backend.download_path gs.filename))) = none →
      (∀ r ∈ st.portal,
        dget r "accession" ≠ some (.str (freshAcc st.nextId))) →
      ∃ r st2, accession_file env st ef gs = .ok (r, st2) ∧
        st2.new_files = st.new_files ++ [r]) ∧
    (∀ (env : Env) (st : AccState) (ef : EDict) (gs : GSFile) (fe : EDict),
      file_at_portal st env.backend gs.filename = some fe →
      (dget fe "status" = some (.str "deleted") ∨
        dget fe "status" = some (.str "revoked")) →
      dget ef "accession" = none →
      ∃ r st2, accession_file env st ef gs = .ok (r, st2) ∧
        st2.new_files = st.new_files ++ [r]) ∧
    (∀ (env : Env) (st : AccState) (dff : List GSFile) (gf : GSFile)
       (ot : Option String) (ef : EDict) (v : Option EVal),
      gf ∈ dff → ef ∈ st.new_files → match_entry ot gf ef = some v →
      v ∈ matched_ids dff (accessioned_files_of env st dff) ot) ∧
    (∀ (env : Env) (fuel : Nat) (p : StepParams) (ps : List StepParams)
       (st : AccState) (l : List EDict) (st2 : AccState),
      accession_step env fuel st p = .ok (l, st2) →
      accession_steps env fuel (p :: ps) st = accession_steps env fuel ps st2) := by
  refine ⟨?_, ?_, ?_, ?_⟩
  · intro env st ef gs h1 h2 h3
    obtain ⟨r, st2, ha, _, _, _, hnf, _, _⟩ :=
      accession_file_create env st ef gs h1 h2 h3
    exact ⟨r, st2, ha, hnf⟩
  · intro env st ef gs fe h1 h2 h3
    obtain ⟨r, st2, ha, _, _, _, hnf, _⟩ :=
      accession_file_patch_deleted env st ef gs fe h1 h2 h3
    exact ⟨r, st2, ha, hnf⟩
  · intro env st dff gf ot ef v hgf hef hv
    simp only [matched_ids]
    refine List.mem_dedup.mpr (List.mem_flatMap.mpr
      ⟨gf, hgf, List.mem_filterMap.mpr ⟨ef, ?_, hv⟩⟩)
    simp only [accessioned_files_of]
    exact List.mem_append_right _ hef
  · intro env fuel p ps st l st2 h
    simp only [accession_steps, h]

/-- C7 witness: the cached record `A2` (in `stDupW.new_files`) matches
the resolved ancestor `x.bam` by content hash, so its identifier is
visible in the matched set of a later `get_derived_from`. -/
theorem c7_witness :
    some (EVal.str "A2") ∈ matched_ids
      (derived_from_files_of AW 3 tdBuiltW "align" "bam" false)
      (accessioned_files_of envW stDupW
        (derived_from_files_of AW 3 tdBuiltW "align" "bam" false)) none :=
  c7_cache_populated_and_consulted.2.2.1 envW stDupW
    (derived_from_files_of AW 3 tdBuiltW "align" "bam" false) fxW none r2W
    (some (.str "A2")) (by decide) (by decide) rfl

/-- C1 witness: on the concrete two-task run the analysis holds exactly
as many artifacts as distinct referenced locations (four). -/
theorem c1_witness :
    (make_tasks bkW tsW).2.length = (referenced_locs tsW).dedup.length ∧
    (make_tasks bkW tsW).2.length = 4 :=
  ⟨(c1_one_artifact_per_location bkW tsW).2.2, rfl⟩

/-- C2 witness: `gs://b/x.bam` is output by `align` (task 0) only and
read by `dedup` (task 1); the built graph holds one artifact for it,
produced by task 0 and consumed by task 1. -/
theorem c2_witness :
    ∃ g ∈ (make_tasks bkW tsW).2, g.filename = "gs://b/x.bam" ∧
      g.task = some 0 ∧ 1 ∈ g.used_by_tasks ∧
      ∀ g2 ∈ (make_tasks bkW tsW).2, g2.filename = "gs://b/x.bam" → g2 = g :=
  c2_shared_artifact_producer_consumer bkW tsW 0 1 "gs://b/x.bam" taW tdW
    rfl rfl (by decide) (by decide)
    (by
      intro k tk hk hmem
      cases k with
      | zero => rfl
      | succ k1 =>
        cases k1 with
        | zero =>
          have h2 : some tdW = some tk := hk
          injection h2 with h3
          subst h3
          exact absurd hmem (by decide)
        | succ k2 =>
          have h2 : (none : Option TaskData) = some tk := hk
          exact Option.noConfusion h2)
